import Mathlib

/-!
Verification development for the testchimp-github-testrunner core:
a shallow embedding of the script-execution / AI-repair engine
(`execution-service.ts`), the deterministic step segmenter, and the
scenario worker pool (`scenario-service.ts`), together with theorems
settling the specified properties.

JavaScript strings are modelled as `List Char`; `undefined`/optional
fields as `Option`; thrown exceptions as `Except`/`Option` error
messages; the external browser and LLM collaborators as oracle
environments (functions from a call counter to an outcome).
-/

/-- Strings of the modelled program: JS strings as lists of characters. -/
abbrev Str := List Char

/-- Whitespace characters (model of the JS `\s` class and `trim`). -/
def isWsChar (c : Char) : Bool :=
  c = ' ' || c = '\t' || c = '\n' || c = '\r'

/-- Drop trailing characters satisfying `isWsChar` (right side of JS `trim`). -/
def dropTrailingWs (cs : Str) : Str :=
  (cs.reverse.dropWhile isWsChar).reverse

/-- Model of JS `String.prototype.trim`. -/
def trimL (cs : Str) : Str :=
  dropTrailingWs (cs.dropWhile isWsChar)

/-- Model of JS `script.split('\n')`. -/
def splitOnNl : Str → List Str
  | [] => [[]]
  | c :: cs =>
    match splitOnNl cs with
    | [] => [[]]
    | r :: rs => if c = '\n' then [] :: r :: rs else (c :: r) :: rs

/-- Model of JS `lines.join('\n')`. -/
def joinNl : List Str → Str
  | [] => []
  | [l] => l
  | l :: l₂ :: ls => l ++ '\n' :: joinNl (l₂ :: ls)

/-- First character of the JS identifier class `[a-zA-Z_$]`. -/
def isIdentStartChar (c : Char) : Bool :=
  c.isAlpha || c = '_' || c = '$'

/-- Continuation character of the JS identifier class `[a-zA-Z0-9_$]`. -/
def isIdentChar (c : Char) : Bool :=
  c.isAlpha || c.isDigit || c = '_' || c = '$'

/-- Match `\s*` followed by the literal character `target` at the head. -/
def wsThenChar (target : Char) : Str → Bool
  | [] => false
  | c :: cs => if isWsChar c then wsThenChar target cs else c = target

/-- After an identifier-start character: match `[a-zA-Z0-9_$]*\s*\(`. -/
def identTailThenParen : Str → Bool
  | [] => false
  | c :: cs =>
    if isIdentChar c then identTailThenParen cs else wsThenChar '(' (c :: cs)

/-- Match the regex alternative `[a-zA-Z_$][a-zA-Z0-9_$]*\s*\(` at the head. -/
def matchIdentCall : Str → Bool
  | [] => false
  | c :: cs => isIdentStartChar c && identTailThenParen cs

/-- Head character is whitespace (the `\s+` obligation after a keyword). -/
def headIsWs : Str → Bool
  | [] => false
  | c :: _ => isWsChar c

/-- Match `kw\s+` at the head of `cs` (regex alternatives `await\s+`, `return\s+`). -/
def matchKeywordWs (kw : Str) (cs : Str) : Bool :=
  kw.isPrefixOf cs && headIsWs (cs.drop kw.length)

/-- Match `kw\s*target` at the head (regex alternatives like `if\s*\(`, `try\s*\x7b`). -/
def matchKeywordThen (kw : Str) (target : Char) (cs : Str) : Bool :=
  kw.isPrefixOf cs && wsThenChar target (cs.drop kw.length)

/-- One position of the executable-code regex of `cleanStepCode`:
does any alternative of
`[a-zA-Z_$][a-zA-Z0-9_$]*\s*\(|await\s+|return\s+|if\s*\(|for\s*\(|while\s*\(|switch\s*\(|try\s*\x7b|catch\s*\(`
match at the head of `cs`? -/
def execAltsAt (cs : Str) : Bool :=
  matchIdentCall cs
  || matchKeywordWs "await".data cs
  || matchKeywordWs "return".data cs
  || matchKeywordThen "if".data '(' cs
  || matchKeywordThen "for".data '(' cs
  || matchKeywordThen "while".data '(' cs
  || matchKeywordThen "switch".data '(' cs
  || matchKeywordThen "try".data (Char.ofNat 123) cs
  || matchKeywordThen "catch".data '(' cs

/-- Model of the unanchored regex test `hasExecutableCode` in `cleanStepCode`:
search every position for a match of one of the alternatives. -/
def hasExecL : Str → Bool
  | [] => false
  | c :: cs => execAltsAt (c :: cs) || hasExecL cs

/-- Model of `ExecutionService.cleanStepCode`: returns the empty string when
the code is empty/blank or contains no executable statement, else the code
unchanged. -/
def cleanStepCode (code : Str) : Str :=
  if trimL code = [] then [] else
  if hasExecL code then code else []

/-- One step of a script, as parsed for AI repair (`ScriptStep` of `types.ts`
together with the adjoined `success?`/`error?` fields). -/
structure ScriptStep where
  description : Str
  code : Str
  success : Option Bool := none
  error : Option Str := none
deriving DecidableEq, Repr

/-- Peel a literal pattern off the front of `cs`. -/
def peelLit (pat : Str) (cs : Str) : Option Str :=
  if pat.isPrefixOf cs then some (cs.drop pat.length) else none

/-- After the first digit of `\d+`: skip remaining digits, expect a colon,
return the rest (used by the step-header regex). -/
def afterDigitsColon : Str → Option Str
  | [] => none
  | c :: cs =>
    if c.isDigit then afterDigitsColon cs
    else if c = ':' then some cs else none

/-- Match the anchored step-header regex `^\/\/\s*Step\s*\d+:\s*` against
`cs`; on success return the remainder after the match. -/
def stepHeaderRest (cs : Str) : Option Str :=
  match peelLit "//".data cs with
  | none => none
  | some r₁ =>
    match peelLit "Step".data (r₁.dropWhile isWsChar) with
    | none => none
    | some r₂ =>
      match r₂.dropWhile isWsChar with
      | [] => none
      | d :: r₃ =>
        if d.isDigit then (afterDigitsColon r₃).map (List.dropWhile isWsChar)
        else none

/-- Model of `.replace(/\s*\[FAILED\]\s*$/, '')`: strip a trailing
`[FAILED]` tag together with the whitespace around it, if present. -/
def stripFailedTag (cs : Str) : Str :=
  let r := cs.reverse.dropWhile isWsChar
  if ("]DELIAF[".data).isPrefixOf r
  then ((r.drop 8).dropWhile isWsChar).reverse
  else cs

/-- Description extracted from a trimmed step-comment line, as in the
fallback parser: strip the `// Step N:` header, the `[FAILED]` tag, trim. -/
def stepDescription (t : Str) : Str :=
  let afterHeader := match stepHeaderRest t with
    | some r => r
    | none => t
  trimL (stripFailedTag afterHeader)

/-- A trimmed line is collected into the current step when it is non-empty
and does not start with `import`, `test(` or the closing line. -/
def isCollectedLine (t : Str) : Bool :=
  !t.isEmpty
  && !("import".data.isPrefixOf t)
  && !("test(".data.isPrefixOf t)
  && !("\x7d);".data.isPrefixOf t)

/-- State of the fallback line scanner of `parseScriptIntoStepsFallback`. -/
structure ParseState where
  steps : List ScriptStep
  currentStep : Option ScriptStep
  currentCode : List Str
deriving Repr

/-- Flush the pending step: push it when its accumulated code survives
`cleanStepCode`, else drop it (source lines 334-341 and 356-364). -/
def flushSteps (st : ParseState) : List ScriptStep :=
  match st.currentStep with
  | none => st.steps
  | some stp =>
    let code := trimL (joinNl st.currentCode)
    let cleaned := cleanStepCode code
    if cleaned = [] then st.steps
    else st.steps ++ [{ stp with code := cleaned }]

/-- Process one line of the script in the fallback parser. -/
def processLine (st : ParseState) (line : Str) : ParseState :=
  let t := trimL line
  if "// Step ".data.isPrefixOf t then
    { steps := flushSteps st,
      currentStep := some { description := stepDescription t, code := [] },
      currentCode := [] }
  else if isCollectedLine t then
    match st.currentStep with
    | some _ => { st with currentCode := st.currentCode ++ [line] }
    | none => st
  else st

/-- Model of `ExecutionService.parseScriptIntoStepsFallback`: deterministic
step segmentation on `// Step N:` boundary markers. -/
def parseScriptIntoStepsFallback (script : Str) : List ScriptStep :=
  flushSteps ((splitOnNl script).foldl processLine ⟨[], none, []⟩)

/-- Model of `ExecutionService.parseScriptIntoSteps` (the engine's
try/catch): return the advisor (LLM) facade's steps when the awaited
facade call resolves (`.ok`), fall back to the deterministic segmenter
only when the facade call rejects (`.error`).  `llmResult` is the
outcome of awaiting `this.llmFacade.parseScriptIntoSteps(script)` as
seen by the engine. -/
def parseScriptIntoSteps (llmResult : Except Str (List ScriptStep))
    (script : Str) : List ScriptStep :=
  match llmResult with
  | .ok steps => steps
  | .error _ => parseScriptIntoStepsFallback script

/-- Model of `LLMFacade.parseScriptIntoSteps`: the facade wraps the LLM
call and the JSON decoding in a try/catch that returns the EMPTY list on
every failure (a thrown call, a JSON parse error, or a response without
a `steps` array — `llmOutcome = .error` covers all of them, since each
makes the facade return `[]`); only a successful call with a well-formed
steps array (`llmOutcome = .ok steps`) returns the parsed steps.  The
facade therefore never rejects, so the value the engine awaits is always
`Except.ok (LLMFacade.parseScriptIntoSteps llmOutcome)`. -/
def LLMFacade.parseScriptIntoSteps
    (llmOutcome : Except Str (List ScriptStep)) : List ScriptStep :=
  match llmOutcome with
  | .ok steps => steps
  | .error _ => []

/-! ### Lemmas about the executable-code matcher -/

theorem wsThenChar_append {t : Char} {cs ys : Str}
    (h : wsThenChar t cs = true) : wsThenChar t (cs ++ ys) = true := by
  induction cs with
  | nil => simp [wsThenChar] at h
  | cons c cs ih =>
    simp only [wsThenChar, List.cons_append] at h ⊢
    by_cases hc : isWsChar c = true
    · simp only [hc, if_true] at h ⊢
      exact ih h
    · simp only [hc] at h ⊢
      simpa using h

theorem identTailThenParen_append {cs ys : Str}
    (h : identTailThenParen cs = true) :
    identTailThenParen (cs ++ ys) = true := by
  induction cs with
  | nil => simp [identTailThenParen] at h
  | cons c cs ih =>
    simp only [identTailThenParen, List.cons_append] at h ⊢
    by_cases hc : isIdentChar c = true
    · simp only [hc, if_true] at h ⊢
      exact ih h
    · simp only [hc] at h ⊢
      exact wsThenChar_append h

theorem matchIdentCall_append {cs ys : Str}
    (h : matchIdentCall cs = true) : matchIdentCall (cs ++ ys) = true := by
  cases cs with
  | nil => simp [matchIdentCall] at h
  | cons c cs =>
    simp only [matchIdentCall, List.cons_append, Bool.and_eq_true] at h ⊢
    exact ⟨h.1, identTailThenParen_append h.2⟩

theorem isPrefixOf_append_right {p cs ys : Str}
    (h : p.isPrefixOf cs = true) : p.isPrefixOf (cs ++ ys) = true := by
  rw [List.isPrefixOf_iff_prefix] at h ⊢
  exact h.trans (List.prefix_append cs ys)

theorem drop_append_of_le {n : Nat} {cs ys : Str} (h : n ≤ cs.length) :
    (cs ++ ys).drop n = cs.drop n ++ ys := by
  induction cs generalizing n with
  | nil =>
    have hn : n = 0 := Nat.le_zero.mp h
    subst hn
    simp
  | cons c cs ih =>
    cases n with
    | zero => simp
    | succ m =>
      simp only [List.cons_append, List.drop_succ_cons]
      exact ih (Nat.le_of_succ_le_succ h)

theorem matchKeywordWs_append {kw cs ys : Str}
    (h : matchKeywordWs kw cs = true) : matchKeywordWs kw (cs ++ ys) = true := by
  simp only [matchKeywordWs, Bool.and_eq_true] at h ⊢
  obtain ⟨h₁, h₂⟩ := h
  refine ⟨isPrefixOf_append_right h₁, ?_⟩
  have hlen : kw.length ≤ cs.length :=
    (List.isPrefixOf_iff_prefix.mp h₁).length_le
  rw [drop_append_of_le hlen]
  cases hd : cs.drop kw.length with
  | nil => rw [hd] at h₂; simp [headIsWs] at h₂
  | cons a t => rw [hd] at h₂; simpa [headIsWs] using h₂

theorem matchKeywordThen_append {kw : Str} {t : Char} {cs ys : Str}
    (h : matchKeywordThen kw t cs = true) :
    matchKeywordThen kw t (cs ++ ys) = true := by
  simp only [matchKeywordThen, Bool.and_eq_true] at h ⊢
  obtain ⟨h₁, h₂⟩ := h
  refine ⟨isPrefixOf_append_right h₁, ?_⟩
  have hlen : kw.length ≤ cs.length :=
    (List.isPrefixOf_iff_prefix.mp h₁).length_le
  rw [drop_append_of_le hlen]
  exact wsThenChar_append h₂

theorem execAltsAt_append {cs ys : Str}
    (h : execAltsAt cs = true) : execAltsAt (cs ++ ys) = true := by
  simp only [execAltsAt, Bool.or_eq_true] at h ⊢
  rcases h with ((((((((h | h) | h) | h) | h) | h) | h) | h) | h)
  · exact Or.inl (Or.inl (Or.inl (Or.inl (Or.inl (Or.inl (Or.inl (Or.inl
      (matchIdentCall_append h))))))))
  · exact Or.inl (Or.inl (Or.inl (Or.inl (Or.inl (Or.inl (Or.inl (Or.inr
      (matchKeywordWs_append h))))))))
  · exact Or.inl (Or.inl (Or.inl (Or.inl (Or.inl (Or.inl (Or.inr
      (matchKeywordWs_append h)))))))
  · exact Or.inl (Or.inl (Or.inl (Or.inl (Or.inl (Or.inr
      (matchKeywordThen_append h))))))
  · exact Or.inl (Or.inl (Or.inl (Or.inl (Or.inr (matchKeywordThen_append h)))))
  · exact Or.inl (Or.inl (Or.inl (Or.inr (matchKeywordThen_append h))))
  · exact Or.inl (Or.inl (Or.inr (matchKeywordThen_append h)))
  · exact Or.inl (Or.inr (matchKeywordThen_append h))
  · exact Or.inr (matchKeywordThen_append h)

theorem hasExecL_append_right {cs ys : Str}
    (h : hasExecL cs = true) : hasExecL (cs ++ ys) = true := by
  induction cs with
  | nil => simp [hasExecL] at h
  | cons c cs ih =>
    simp only [hasExecL, Bool.or_eq_true, List.cons_append] at h ⊢
    rcases h with h | h
    · exact Or.inl (by simpa using @execAltsAt_append (c :: cs) _ h)
    · exact Or.inr (ih h)

theorem hasExecL_append_left {xs cs : Str}
    (h : hasExecL cs = true) : hasExecL (xs ++ cs) = true := by
  induction xs with
  | nil => simpa using h
  | cons x xs ih =>
    simp only [hasExecL, Bool.or_eq_true, List.cons_append]
    exact Or.inr ih

theorem hasExecL_infix {xs cs ys : Str}
    (h : hasExecL cs = true) : hasExecL (xs ++ (cs ++ ys)) = true :=
  hasExecL_append_left (hasExecL_append_right h)

/-! ### Lemmas about `trimL`: infixes with non-whitespace ends survive trimming -/

theorem dropWhile_append_nonWs {h : Char} (hh : isWsChar h = false) (u v : Str) :
    ∃ u₂, (u ++ h :: v).dropWhile isWsChar = u₂ ++ h :: v := by
  induction u with
  | nil => exact ⟨[], by simp [List.dropWhile_cons, hh]⟩
  | cons a u ih =>
    by_cases ha : isWsChar a = true
    · obtain ⟨u₂, hu⟩ := ih
      exact ⟨u₂, by simp [List.dropWhile_cons, ha, hu]⟩
    · exact ⟨a :: u, by simp [List.dropWhile_cons, ha]⟩

theorem dropTrailingWs_eq_prefix (cs : Str) :
    ∃ u, cs = dropTrailingWs cs ++ u := by
  refine ⟨(cs.reverse.takeWhile isWsChar).reverse, ?_⟩
  conv_lhs => rw [← cs.reverse_reverse,
    ← List.takeWhile_append_dropWhile (p := isWsChar) (l := cs.reverse)]
  rw [List.reverse_append]
  rfl

theorem trimL_decomp (cs : Str) : ∃ A B, cs = A ++ (trimL cs ++ B) := by
  obtain ⟨u, hu⟩ := dropTrailingWs_eq_prefix (cs.dropWhile isWsChar)
  refine ⟨cs.takeWhile isWsChar, u, ?_⟩
  conv_lhs => rw [← List.takeWhile_append_dropWhile (p := isWsChar) (l := cs)]
  rw [hu]
  rfl

theorem dropWhile_head_false {p : Char → Bool} {l : Str} {h : Char} {t : Str}
    (hd : l.dropWhile p = h :: t) : p h = false := by
  induction l with
  | nil => simp at hd
  | cons a l ih =>
    rw [List.dropWhile_cons] at hd
    by_cases ha : p a = true
    · rw [if_pos ha] at hd
      exact ih hd
    · rw [if_neg ha] at hd
      cases hd
      exact Bool.eq_false_iff.mpr ha

theorem trimL_reverse_eq (cs : Str) :
    (trimL cs).reverse = ((cs.dropWhile isWsChar).reverse).dropWhile isWsChar := by
  simp [trimL, dropTrailingWs]

theorem trimL_head_not_ws {cs : Str} {h : Char} {t : Str}
    (he : trimL cs = h :: t) : isWsChar h = false := by
  obtain ⟨u, hu⟩ := dropTrailingWs_eq_prefix (cs.dropWhile isWsChar)
  have hu₂ : cs.dropWhile isWsChar = h :: (t ++ u) := by
    rw [hu]
    show trimL cs ++ u = _
    rw [he]
    simp
  exact dropWhile_head_false hu₂

theorem trimL_last_not_ws {cs : Str} {h : Char} {t : Str}
    (he : (trimL cs).reverse = h :: t) : isWsChar h = false := by
  rw [trimL_reverse_eq] at he
  exact dropWhile_head_false he

theorem trimL_idem (cs : Str) : trimL (trimL cs) = trimL cs := by
  cases he : trimL cs with
  | nil => rfl
  | cons h t =>
    have hh : isWsChar h = false := trimL_head_not_ws he
    have h₁ : (h :: t).dropWhile isWsChar = h :: t := by
      simp [List.dropWhile_cons, hh]
    show dropTrailingWs ((h :: t).dropWhile isWsChar) = h :: t
    rw [h₁]
    cases hr : (h :: t).reverse with
    | nil => simp at hr
    | cons h₂ t₂ =>
      have hh₂ : isWsChar h₂ = false := by
        apply @trimL_last_not_ws cs _ _
        rw [he, hr]
      show ((h :: t).reverse.dropWhile isWsChar).reverse = h :: t
      rw [hr]
      simp only [List.dropWhile_cons, hh₂]
      rw [if_neg (by simp)]
      rw [← hr]
      simp

theorem trimL_infix_of_infix {x A B m : Str} {h h₂ : Char} {t t₂ : Str}
    (hx : x = A ++ (m ++ B)) (hm : m = h :: t) (hh : isWsChar h = false)
    (hmr : m.reverse = h₂ :: t₂) (hh₂ : isWsChar h₂ = false) :
    ∃ A₂ B₂, trimL x = A₂ ++ (m ++ B₂) := by
  obtain ⟨A₁, hA₁⟩ := dropWhile_append_nonWs hh A (t ++ B)
  have hx₁ : x.dropWhile isWsChar = A₁ ++ (h :: (t ++ B)) := by
    rw [hx, hm]
    simpa using hA₁
  obtain ⟨B₁, hB₁⟩ := dropWhile_append_nonWs hh₂ B.reverse (t₂ ++ A₁.reverse)
  have hrev : (x.dropWhile isWsChar).reverse
      = B.reverse ++ (h₂ :: (t₂ ++ A₁.reverse)) := by
    rw [hx₁]
    have : (h :: (t ++ B)).reverse = B.reverse ++ (h₂ :: t₂) := by
      have hmrev : (h :: t).reverse = h₂ :: t₂ := by rw [← hm, hmr]
      calc (h :: (t ++ B)).reverse
          = B.reverse ++ (h :: t).reverse := by simp
        _ = B.reverse ++ (h₂ :: t₂) := by rw [hmrev]
    rw [List.reverse_append, this]
    simp
  have htr : (trimL x).reverse = B₁ ++ (h₂ :: (t₂ ++ A₁.reverse)) := by
    rw [trimL_reverse_eq, hrev, hB₁]
  have hm₂ : m = t₂.reverse ++ [h₂] := by
    have := congrArg List.reverse hmr
    simpa using this
  refine ⟨A₁, B₁.reverse, ?_⟩
  have : trimL x = (B₁ ++ (h₂ :: (t₂ ++ A₁.reverse))).reverse := by
    rw [← htr, List.reverse_reverse]
  rw [this, hm₂]
  simp

theorem joinNl_mem_infix {l : Str} {ls : List Str} (h : l ∈ ls) :
    ∃ A B, joinNl ls = A ++ (l ++ B) := by
  induction ls with
  | nil => simp at h
  | cons a r ih =>
    cases r with
    | nil =>
      have : l = a := by simpa using h
      exact ⟨[], [], by simp [joinNl, this]⟩
    | cons b r₂ =>
      rcases List.mem_cons.mp h with he | hmem
      · exact ⟨[], '\n' :: joinNl (b :: r₂), by simp [joinNl, he]⟩
      · obtain ⟨A, B, hAB⟩ := ih hmem
        refine ⟨a ++ '\n' :: A, B, ?_⟩
        show joinNl (a :: b :: r₂) = _
        rw [joinNl, hAB]
        simp

/-! ### The parser invariant for the segmentation-fallback property -/

/-- A line that contributes executable code to its step: non-blank after
trimming, and the executable-statement regex matches its trimmed text. -/
def goodCodeLine (l : Str) : Prop :=
  trimL l ≠ [] ∧ hasExecL (trimL l) = true

/-- Invariant carried through the fallback scan: either a step has already
been emitted, or the pending step exists and has collected a line with
executable code (so the eventual flush emits it). -/
def goodParseState (st : ParseState) : Prop :=
  st.steps ≠ [] ∨ (st.currentStep.isSome = true ∧ ∃ l ∈ st.currentCode, goodCodeLine l)

theorem cleanStepCode_of_good {cc : List Str} {l : Str}
    (hl : l ∈ cc) (hg : goodCodeLine l) :
    cleanStepCode (trimL (joinNl cc)) ≠ [] := by
  obtain ⟨hne, hexec⟩ := hg
  cases hm : trimL l with
  | nil => exact absurd hm hne
  | cons h t =>
    have hh : isWsChar h = false := trimL_head_not_ws hm
    cases hmr : (trimL l).reverse with
    | nil =>
      rw [hm] at hmr
      simp at hmr
    | cons h₂ t₂ =>
      have hh₂ : isWsChar h₂ = false := trimL_last_not_ws hmr
      obtain ⟨A, B, hAB⟩ := joinNl_mem_infix hl
      obtain ⟨A₀, B₀, hA₀⟩ := trimL_decomp l
      have hx : joinNl cc = (A ++ A₀) ++ (trimL l ++ (B₀ ++ B)) := by
        rw [hAB]
        conv_lhs => rw [hA₀]
        simp
      obtain ⟨A₂, B₂, h₂x⟩ := trimL_infix_of_infix hx hm hh hmr hh₂
      have hcode_ne : trimL (joinNl cc) ≠ [] := by
        rw [h₂x, hm]
        simp
      have hexec₂ : hasExecL (trimL (joinNl cc)) = true := by
        rw [h₂x]
        exact hasExecL_infix hexec
      unfold cleanStepCode
      rw [trimL_idem, if_neg hcode_ne, if_pos hexec₂]
      exact hcode_ne

theorem flushSteps_ne_nil {st : ParseState} (h : goodParseState st) :
    flushSteps st ≠ [] := by
  rcases h with h | ⟨hsome, l, hl, hg⟩
  · unfold flushSteps
    cases st.currentStep with
    | none => exact h
    | some stp =>
      by_cases hc : cleanStepCode (trimL (joinNl st.currentCode)) = []
      · simpa [hc] using h
      · simp [hc]
  · obtain ⟨stp, hstp⟩ := Option.isSome_iff_exists.mp hsome
    have hne := cleanStepCode_of_good hl hg
    simp only [flushSteps, hstp]
    rw [if_neg hne]
    simp

theorem processLine_isSome {st : ParseState} {line : Str}
    (h : st.currentStep.isSome = true) :
    (processLine st line).currentStep.isSome = true := by
  unfold processLine
  by_cases h₁ : "// Step ".data.isPrefixOf (trimL line) = true
  · simp [h₁]
  · rw [if_neg h₁]
    by_cases h₂ : isCollectedLine (trimL line) = true
    · rw [if_pos h₂]
      obtain ⟨s, hs⟩ := Option.isSome_iff_exists.mp h
      rw [hs]
      simpa using h
    · rw [if_neg h₂]
      exact h

theorem foldl_processLine_isSome {ls : List Str} {st : ParseState}
    (h : st.currentStep.isSome = true) :
    (ls.foldl processLine st).currentStep.isSome = true := by
  induction ls generalizing st with
  | nil => exact h
  | cons a ls ih => exact ih (processLine_isSome h)

theorem processLine_good {st : ParseState} {line : Str}
    (h : goodParseState st) : goodParseState (processLine st line) := by
  unfold processLine
  by_cases h₁ : "// Step ".data.isPrefixOf (trimL line) = true
  · rw [if_pos h₁]
    exact Or.inl (flushSteps_ne_nil h)
  · rw [if_neg h₁]
    by_cases h₂ : isCollectedLine (trimL line) = true
    · rw [if_pos h₂]
      rcases h with hsteps | ⟨hsome, l, hl, hg⟩
      · cases hcur : st.currentStep with
        | none => exact Or.inl hsteps
        | some s => exact Or.inl hsteps
      · obtain ⟨s, hs⟩ := Option.isSome_iff_exists.mp hsome
        rw [hs]
        refine Or.inr ⟨by simpa using hsome, l, ?_, hg⟩
        simp only [List.mem_append]
        exact Or.inl hl
    · rw [if_neg h₂]
      exact h

theorem foldl_processLine_good {ls : List Str} {st : ParseState}
    (h : goodParseState st) : goodParseState (ls.foldl processLine st) := by
  induction ls generalizing st with
  | nil => exact h
  | cons a ls ih => exact ih (processLine_good h)

theorem processLine_collect_good {st : ParseState} {c : Str}
    (hsome : st.currentStep.isSome = true)
    (hnm : "// Step ".data.isPrefixOf (trimL c) = false)
    (hcol : isCollectedLine (trimL c) = true)
    (hexec : hasExecL (trimL c) = true) :
    goodParseState (processLine st c) := by
  have hne : trimL c ≠ [] := by
    intro habs
    rw [isCollectedLine, habs] at hcol
    simp at hcol
  unfold processLine
  rw [if_neg (by simp [hnm]), if_pos hcol]
  obtain ⟨s, hs⟩ := Option.isSome_iff_exists.mp hsome
  rw [hs]
  refine Or.inr ⟨by simpa using hsome, c, ?_, hne, hexec⟩
  simp

/-- Helper: the engine's catch branch WOULD fall back to the
deterministic step segmenter (`parseScriptIntoStepsFallback`) if the
awaited facade call rejected, and that segmenter produces a non-empty
ordered step list whenever the script contains a step-boundary marker
line (`// Step N:`) followed (on a later line) by a collected line of
executable code. -/
theorem segmentation_fallback_nonempty
    (e : Str) (script : Str) (A B₁ B₂ : List Str) (m c : Str)
    (hsplit : splitOnNl script = A ++ (m :: (B₁ ++ (c :: B₂))))
    (hmark : "// Step ".data.isPrefixOf (trimL m) = true)
    (hcnomark : "// Step ".data.isPrefixOf (trimL c) = false)
    (hccol : isCollectedLine (trimL c) = true)
    (hcexec : hasExecL (trimL c) = true) :
    parseScriptIntoSteps (.error e) script = parseScriptIntoStepsFallback script
    ∧ parseScriptIntoSteps (.error e) script ≠ [] := by
  refine ⟨rfl, ?_⟩
  show parseScriptIntoStepsFallback script ≠ []
  unfold parseScriptIntoStepsFallback
  rw [hsplit, List.foldl_append, List.foldl_cons, List.foldl_append,
    List.foldl_cons]
  apply flushSteps_ne_nil
  apply foldl_processLine_good
  apply processLine_collect_good _ hcnomark hccol hcexec
  apply foldl_processLine_isSome
  unfold processLine
  rw [if_pos hmark]
  simp

/-- Concrete check of the helper: a two-line script with one step marker
and one executable line segments into a non-empty step list under the
fallback. -/
theorem segmentation_fallback_nonempty_witness :
    parseScriptIntoSteps (.error "boom".data)
        ("// Step 1: go" ++ String.mk ['\n'] ++ "await page.goto(u);").data
      = parseScriptIntoStepsFallback
        ("// Step 1: go" ++ String.mk ['\n'] ++ "await page.goto(u);").data
    ∧ parseScriptIntoSteps (.error "boom".data)
        ("// Step 1: go" ++ String.mk ['\n'] ++ "await page.goto(u);").data ≠ [] :=
  segmentation_fallback_nonempty "boom".data _ [] [] []
    "// Step 1: go".data "await page.goto(u);".data
    (by decide) (by decide) (by decide) (by decide) (by decide)

/-- Claim C7 (code bug): `LLMFacade.parseScriptIntoSteps` catches every
failure of the LLM call or of the JSON decoding and returns the empty
list instead of rethrowing, so the promise the engine awaits never
rejects.  Consequently the engine's catch-and-fall-back branch of
`ExecutionService.parseScriptIntoSteps` is unreachable: on advisor
failure the engine proceeds with ZERO steps instead of falling back to
the deterministic segmenter — even for a script on which that segmenter
would have produced a non-empty step list. -/
theorem segmentation_fallback_unreachable
    (llmOutcome : Except Str (List ScriptStep)) (script : Str)
    (A B₁ B₂ : List Str) (m c e : Str)
    (hfail : llmOutcome = .error e)
    (hsplit : splitOnNl script = A ++ (m :: (B₁ ++ (c :: B₂))))
    (hmark : "// Step ".data.isPrefixOf (trimL m) = true)
    (hcnomark : "// Step ".data.isPrefixOf (trimL c) = false)
    (hccol : isCollectedLine (trimL c) = true)
    (hcexec : hasExecL (trimL c) = true) :
    (∀ o : Except Str (List ScriptStep),
      parseScriptIntoSteps (Except.ok (LLMFacade.parseScriptIntoSteps o))
          script
        = LLMFacade.parseScriptIntoSteps o)
    ∧ LLMFacade.parseScriptIntoSteps llmOutcome = []
    ∧ parseScriptIntoSteps
        (Except.ok (LLMFacade.parseScriptIntoSteps llmOutcome)) script = []
    ∧ parseScriptIntoStepsFallback script ≠ [] := by
  subst hfail
  refine ⟨fun o => rfl, rfl, rfl, ?_⟩
  have h := segmentation_fallback_nonempty e script A B₁ B₂ m c
    hsplit hmark hcnomark hccol hcexec
  exact h.1 ▸ h.2

/-- Witness for C7: on the two-line script of the fallback check, an
advisor failure makes the facade return `[]`, the engine keeps the zero
steps (no fallback), yet the deterministic segmenter would have produced
a non-empty step list. -/
theorem segmentation_fallback_unreachable_witness :
    parseScriptIntoSteps
        (Except.ok (LLMFacade.parseScriptIntoSteps
          (Except.error "boom".data)))
        ("// Step 1: go" ++ String.mk ['\n'] ++ "await page.goto(u);").data
      = LLMFacade.parseScriptIntoSteps (Except.error "boom".data)
    ∧ LLMFacade.parseScriptIntoSteps (Except.error "boom".data) = []
    ∧ parseScriptIntoSteps
        (Except.ok (LLMFacade.parseScriptIntoSteps
          (Except.error "boom".data)))
        ("// Step 1: go" ++ String.mk ['\n'] ++ "await page.goto(u);").data
      = []
    ∧ parseScriptIntoStepsFallback
        ("// Step 1: go" ++ String.mk ['\n'] ++ "await page.goto(u);").data
      ≠ [] := by
  obtain ⟨h₁, h₂, h₃, h₄⟩ := segmentation_fallback_unreachable
    (Except.error "boom".data)
    ("// Step 1: go" ++ String.mk ['\n'] ++ "await page.goto(u);").data
    [] [] [] "// Step 1: go".data "await page.goto(u);".data "boom".data
    rfl (by decide) (by decide) (by decide) (by decide) (by decide)
  exact ⟨h₁ (Except.error "boom".data), h₂, h₃, h₄⟩

/-! ### The step-repair engine (`repairStepsWithAI` and its helpers) -/

/-- `StepOperation` of `types.ts`. -/
inductive StepOperation
  | MODIFY
  | INSERT
  | REMOVE
deriving DecidableEq, Repr

/-- `StepRepairAction` of `types.ts`: tagged operation with optional index
fields and optional replacement step. -/
structure StepRepairAction where
  operation : StepOperation
  stepIndex : Option Nat := none
  newStep : Option ScriptStep := none
  insertAfterIndex : Option Int := none
deriving DecidableEq, Repr

/-- Advisor reply for one repair attempt (`RepairSuggestionResponse`). -/
structure RepairSuggestionResponse where
  shouldContinue : Bool
  reason : Str := []
  action : StepRepairAction
deriving DecidableEq, Repr

/-- One entry of the `recentRepairs` ring buffer (capacity 3). -/
structure RecentRepair where
  stepNumber : Nat
  operation : StepOperation
  originalDescription : Option Str := none
  newDescription : Option Str := none
  originalCode : Option Str := none
  newCode : Option Str := none
deriving DecidableEq, Repr

/-- Oracle environment for the repair loop: outcome of the n-th
`executeStepCode` call (`none` = success, `some msg` = throw), and the
advisor reply to the n-th `getRepairSuggestion` call.  Page-state capture
and prompt building do not influence control flow and are not modelled. -/
structure RepairEnv where
  exec : Nat → Option Str
  advisor : Nat → RepairSuggestionResponse

/-- Result record of `applyRepairActionInContext`
(`{ success, error?, updatedContext? }`). -/
structure ApplyResult where
  success : Bool
  error : Option Str := none
  updatedContext : Option Str := none
deriving DecidableEq, Repr

/-- Output of the modelled `applyRepairActionInContext`: its result record,
the (mutated) step array, and the exec-call counter after the call. -/
structure ApplyOutcome where
  result : ApplyResult
  steps : List ScriptStep
  execTick : Nat
deriving Repr

/-- JS `steps.splice(n, 0, x)`: insert `x` at position `n` (clamped to the
array length, as in JS). -/
def spliceInsert (n : Nat) (x : ScriptStep) (l : List ScriptStep) :
    List ScriptStep :=
  l.take n ++ x :: l.drop n

/-- The `successStatusMap` built before the splice: position to
`(success, error)` of the step then at that position. -/
def statusMapOf (steps : List ScriptStep) (p : Nat) :
    Option (Option Bool × Option Str) :=
  (steps.get? p).map (fun s => (s.success, s.error))

/-- The restore loop after the splice (source lines 837-844): for every
position past the insertion point, overwrite `success`/`error` with the
status of the step originally one slot earlier. -/
def restoreStatusesAux (origMap : Nat → Option (Option Bool × Option Str))
    (insertIndex : Nat) : Nat → List ScriptStep → List ScriptStep
  | _, [] => []
  | p, s :: rest =>
    (if insertIndex + 1 ≤ p then
      match origMap (p - 1) with
      | some (su, er) => { s with success := su, error := er }
      | none => s
    else s) :: restoreStatusesAux origMap insertIndex (p + 1) rest

def restoreStatuses (origMap : Nat → Option (Option Bool × Option Str))
    (insertIndex : Nat) (steps : List ScriptStep) : List ScriptStep :=
  restoreStatusesAux origMap insertIndex 0 steps

/-- Model of `ExecutionService.applyRepairActionInContext`.  Mutations to
the step array happen before the trial execution of the new code, so they
persist even when that execution throws (exactly as in the source, where
the array is spliced or overwritten before `executeStepCode` is awaited). -/
def applyRepairActionInContext (env : RepairEnv) (tick : Nat)
    (action : StepRepairAction) (steps : List ScriptStep)
    (executionContext : Str) : ApplyOutcome :=
  match action.operation with
  | .MODIFY =>
    match action.newStep, action.stepIndex with
    | some ns, some idx =>
      let steps₁ := steps.set idx { ns with success := some false, error := none }
      match env.exec tick with
      | none =>
        ⟨⟨true, none, some (executionContext ++ ns.code)⟩, steps₁, tick + 1⟩
      | some err => ⟨⟨false, some err, none⟩, steps₁, tick + 1⟩
    | _, _ => ⟨⟨false, some "Invalid repair action".data, none⟩, steps, tick⟩
  | .INSERT =>
    match action.newStep, action.insertAfterIndex with
    | some ns, some k =>
      let insertIndex := (k + 1).toNat
      let newStep : ScriptStep := { ns with success := some false, error := none }
      let origMap := statusMapOf steps
      let steps₁ :=
        restoreStatuses origMap insertIndex (spliceInsert insertIndex newStep steps)
      match env.exec tick with
      | none =>
        ⟨⟨true, none, some (executionContext ++ ns.code)⟩, steps₁, tick + 1⟩
      | some err => ⟨⟨false, some err, none⟩, steps₁, tick + 1⟩
    | _, _ => ⟨⟨false, some "Invalid repair action".data, none⟩, steps, tick⟩
  | .REMOVE =>
    match action.stepIndex with
    | some idx =>
      ⟨⟨true, none, some executionContext⟩, steps.eraseIdx idx, tick⟩
    | none => ⟨⟨false, some "Invalid repair action".data, none⟩, steps, tick⟩

/-- Client-side index override before applying a suggestion (source lines
460-464): `stepIndex := i`, and for INSERT `insertAfterIndex := i - 1`
(insert immediately before the failing step), else `undefined`. -/
def overrideIndices (a : StepRepairAction) (i : Nat) : StepRepairAction :=
  { a with stepIndex := some i,
           insertAfterIndex :=
             if a.operation = StepOperation.INSERT then some ((i : Int) - 1)
             else none }

/-- Cursor update after a successful INSERT (source lines 544-551):
advance when the insertion happened before the current position. -/
def insertCursorUpdate (kOpt : Option Int) (i : Nat) : Nat :=
  match kOpt with
  | some k => if k < (i : Int) then i + 1 else i
  | none => i

/-- Cursor update after a successful repair, per operation (source lines
537-561). -/
def newCursorAfterRepair (a : StepRepairAction) (i : Nat) : Nat :=
  match a.operation with
  | .INSERT => insertCursorUpdate a.insertAfterIndex i
  | .REMOVE => i
  | .MODIFY => i + 1

/-- Overwrite `success`/`error` of the step at position `p`, when present. -/
def setStepFields (p : Nat) (su : Option Bool) (er : Option Str)
    (l : List ScriptStep) : List ScriptStep :=
  match l.get? p with
  | some s => l.set p { s with success := su, error := er }
  | none => l

/-- Overwrite only the `error` field of the step at position `p`. -/
def setStepError (p : Nat) (msg : Str) (l : List ScriptStep) :
    List ScriptStep :=
  match l.get? p with
  | some s => l.set p { s with error := some msg }
  | none => l

/-- Mark the repaired step successful after a successful apply (source
lines 481-499): MODIFY marks position `i`, INSERT marks the inserted
position, REMOVE marks nothing. -/
def markRepairedStep (a : StepRepairAction) (i : Nat)
    (steps : List ScriptStep) : List ScriptStep :=
  match a.operation with
  | .MODIFY => setStepFields i (some true) none steps
  | .INSERT =>
    let insertIndex := match a.insertAfterIndex with
      | some k => (k + 1).toNat
      | none => i + 1
    setStepFields insertIndex (some true) none steps
  | .REMOVE => steps

/-- JS `String.prototype.replace` with a plain-string pattern: replace the
first occurrence of `pat` by `rep`. -/
def replaceFirst (pat rep : Str) : Str → Str
  | [] => if pat.isEmpty then rep else []
  | c :: cs =>
    if pat.isPrefixOf (c :: cs) then rep ++ (c :: cs).drop pat.length
    else c :: replaceFirst pat rep cs

/-- Execution-context bookkeeping after a successful repair (source lines
511-520). -/
def contextAfterRepair (a : StepRepairAction) (origCode : Str) (ctx : Str) :
    Str :=
  match a.operation with
  | .MODIFY =>
    match a.newStep with
    | some ns => replaceFirst origCode ns.code ctx
    | none => ctx
  | .INSERT =>
    match a.newStep with
    | some ns => ctx ++ ns.code ++ ['\n']
    | none => ctx
  | .REMOVE => replaceFirst origCode [] ctx

/-- Record a successful repair in the recent-repairs buffer, trimmed to the
last three entries (source lines 522-535). -/
def pushRecent (i : Nat) (a : StepRepairAction) (origDesc origCode : Str)
    (recents : List RecentRepair) : List RecentRepair :=
  let entry : RecentRepair :=
    { stepNumber := i + 1,
      operation := a.operation,
      originalDescription :=
        if a.operation = StepOperation.REMOVE then some origDesc else none,
      newDescription := a.newStep.map (fun s => s.description),
      originalCode :=
        if a.operation = StepOperation.REMOVE then some origCode else none,
      newCode := a.newStep.map (fun s => s.code) }
  let l := recents ++ [entry]
  if l.length > 3 then l.drop 1 else l

/-- Position tracking for the JS alias `step` (the object captured at
failure time).  Array mutations move or orphan the aliased object; writes
through the alias only reach the array while the object is still in it. -/
def updateAliasPos (a : StepRepairAction) (p : Option Nat) : Option Nat :=
  match a.operation with
  | .MODIFY =>
    match a.newStep, a.stepIndex with
    | some _, some idx =>
      match p with
      | some q => if q = idx then none else some q
      | none => none
    | _, _ => p
  | .INSERT =>
    match a.newStep, a.insertAfterIndex with
    | some _, some k =>
      let insertIndex := (k + 1).toNat
      match p with
      | some q => if insertIndex ≤ q then some (q + 1) else some q
      | none => none
    | _, _ => p
  | .REMOVE =>
    match a.stepIndex with
    | some idx =>
      match p with
      | some q =>
        if q = idx then none else if idx < q then some (q - 1) else some q
      | none => none
    | none => p

/-- The message recorded for a failed repair attempt:
`result.error || 'Repair action failed'`. -/
def repairErrMsg (e : Option Str) : Str :=
  match e with
  | some msg => if msg = [] then "Repair action failed".data else msg
  | none => "Repair action failed".data

/-- State threaded through the inner repair loop for one failing step. -/
structure InnerState where
  steps : List ScriptStep
  aliasPos : Option Nat
  execTick : Nat
  advTick : Nat
  executionContext : Str
  recentRepairs : List RecentRepair
  repairHistory : List (Nat × StepRepairAction × Str)
deriving Repr

/-- The inner repair loop for one failing step (source lines 429-594),
bounded by the remaining attempt count (`maxTries = 3` at the call site).
Returns the final inner state, whether a repair applied successfully, and
the new cursor. -/
def innerLoop (env : RepairEnv) (i : Nat) (origDesc origCode : Str) :
    Nat → Nat → InnerState → InnerState × Bool × Nat
  | 0, _, ist => (ist, false, i)
  | n + 1, att, ist =>
    let sug := env.advisor ist.advTick
    let ist₁ := { ist with advTick := ist.advTick + 1 }
    if sug.shouldContinue = false then (ist₁, false, i)
    else
      let action := overrideIndices sug.action i
      let out := applyRepairActionInContext env ist₁.execTick action ist₁.steps
        ist₁.executionContext
      let alias₂ := updateAliasPos action ist₁.aliasPos
      if out.result.success then
        let steps₃ := markRepairedStep action i out.steps
        let ctx₃ := contextAfterRepair action origCode ist₁.executionContext
        let recents₃ := pushRecent i action origDesc origCode ist₁.recentRepairs
        ({ ist₁ with
            steps := steps₃, aliasPos := alias₂, execTick := out.execTick,
            executionContext := ctx₃ ++ origCode ++ ['\n'],
            recentRepairs := recents₃ }, true, newCursorAfterRepair action i)
      else
        let errMsg := repairErrMsg out.result.error
        let steps₄ := match alias₂ with
          | some p => setStepError p errMsg out.steps
          | none => out.steps
        innerLoop env i origDesc origCode n (att + 1)
          { ist₁ with
              steps := steps₄, aliasPos := alias₂, execTick := out.execTick,
              repairHistory := ist₁.repairHistory ++ [(att, sug.action, errMsg)] }

/-- State of the outer repair loop. -/
structure LoopState where
  steps : List ScriptStep
  i : Nat
  execTick : Nat
  advTick : Nat
  executionContext : Str
  recentRepairs : List RecentRepair
deriving Repr

/-- One iteration of the outer loop of `repairStepsWithAI` (executes the
step under the cursor and, on failure, runs the inner repair loop).  The
Boolean is true when the iteration executed the abandon-repair `break`. -/
def outerIter (env : RepairEnv) (st : LoopState) : LoopState × Bool :=
  match st.steps.get? st.i with
  | none => (st, false)
  | some step =>
    match env.exec st.execTick with
    | none =>
      ({ st with
          steps := st.steps.set st.i { step with success := some true },
          executionContext := st.executionContext ++ step.code ++ ['\n'],
          i := st.i + 1, execTick := st.execTick + 1 }, false)
    | some e =>
      let steps₁ :=
        st.steps.set st.i { step with success := some false, error := some e }
      let ist₀ : InnerState :=
        ⟨steps₁, some st.i, st.execTick + 1, st.advTick, st.executionContext,
         st.recentRepairs, []⟩
      let r := innerLoop env st.i step.description step.code 3 1 ist₀
      ({ st with
          steps := r.1.steps, i := r.2.2, execTick := r.1.execTick,
          advTick := r.1.advTick, executionContext := r.1.executionContext,
          recentRepairs := r.1.recentRepairs }, r.2.1 = false)

/-- The outer while-loop of `repairStepsWithAI`, with explicit fuel (the
source loop can run unboundedly for adversarial environments, since failed
INSERT attempts grow the array).  `none` models non-termination within the
given fuel. -/
def runLoop (env : RepairEnv) : Nat → LoopState → Option LoopState
  | 0, st => if st.i < st.steps.length then none else some st
  | n + 1, st =>
    if st.i < st.steps.length then
      let r := outerIter env st
      if r.2 then some r.1 else runLoop env n r.1
    else some st

/-- Model of `ExecutionService.repairStepsWithAI`: run the outer loop from
the parsed steps with fresh counters, returning the final loop state. -/
def repairStepsWithAI (env : RepairEnv) (fuel : Nat)
    (steps : List ScriptStep) : Option LoopState :=
  runLoop env fuel ⟨steps, 0, 0, 0, [], []⟩

/-- `allStepsSuccessful` of `runWithAIRepair` (source line 247):
non-empty and every step truthy-successful. -/
def allStepsSuccessful (l : List ScriptStep) : Bool :=
  decide (0 < l.length) && l.all (fun s => s.success = some true)

/-- `hasSuccessfulRepairs` of `runWithAIRepair` (source line 250): some
step in the final sequence has a truthy `success` field — note that this
includes steps that executed successfully without any repair. -/
def hasSuccessfulRepairs (l : List ScriptStep) : Bool :=
  l.any (fun s => s.success = some true)

/-- The `repair_status` values (`partialRepair` models the string
value `'partial'`). -/
inductive RepairStatus
  | success
  | partialRepair
  | failed
deriving DecidableEq, Repr

/-- The final repair classification computed by `runWithAIRepair`
(source lines 263-295). -/
def finalRepairStatus (l : List ScriptStep) : RepairStatus :=
  if hasSuccessfulRepairs l then
    (if allStepsSuccessful l then .success else .partialRepair)
  else .failed

/-! ### The INSERT splice preserves the shifted steps verbatim -/

theorem restoreAux_high (origMap : Nat → Option (Option Bool × Option Str))
    (n : Nat) :
    ∀ (B : List ScriptStep) (p : Nat), n + 1 ≤ p →
      (∀ j, origMap (p + j - 1) = (B.get? j).map (fun s => (s.success, s.error))) →
      restoreStatusesAux origMap n p B = B := by
  intro B
  induction B with
  | nil => intro p _ _; rfl
  | cons b B ih =>
    intro p hp hmap
    have h₀ := hmap 0
    simp at h₀
    rw [restoreStatusesAux, if_pos hp, h₀]
    congr 1
    apply ih (p + 1) (Nat.le_succ_of_le hp)
    intro j
    have := hmap (j + 1)
    simpa [Nat.add_assoc, Nat.add_comm 1 j, Nat.add_sub_cancel] using this

theorem restoreAux_low (origMap : Nat → Option (Option Bool × Option Str))
    (n : Nat) :
    ∀ (A : List ScriptStep) (p : Nat) (rest : List ScriptStep),
      p + A.length ≤ n + 1 →
      restoreStatusesAux origMap n p (A ++ rest)
        = A ++ restoreStatusesAux origMap n (p + A.length) rest := by
  intro A
  induction A with
  | nil => intro p rest _; simp
  | cons a A ih =>
    intro p rest hp
    have hp₂ : p + 1 + A.length ≤ n + 1 := by
      simp only [List.length_cons] at hp
      omega
    have hlt : ¬ (n + 1 ≤ p) := by
      simp only [List.length_cons] at hp
      omega
    have harith : p + (a :: A).length = p + 1 + A.length := by
      simp only [List.length_cons]
      omega
    rw [harith, List.cons_append, restoreStatusesAux, if_neg hlt,
      ih (p + 1) rest hp₂]
    rfl

theorem restoreStatuses_splice_id (l : List ScriptStep) (x : ScriptStep)
    (n : Nat) (hn : n ≤ l.length) :
    restoreStatuses (statusMapOf l) n (spliceInsert n x l)
      = spliceInsert n x l := by
  have hlen : (l.take n).length = n := by
    simp [List.length_take, Nat.min_eq_left hn]
  unfold restoreStatuses spliceInsert
  rw [restoreAux_low (statusMapOf l) n (l.take n) 0 (x :: l.drop n)
    (by rw [hlen]; omega)]
  congr 1
  rw [hlen]
  have hnot : ¬ (n + 1 ≤ 0 + n) := by omega
  rw [restoreStatusesAux, if_neg hnot]
  congr 1
  apply restoreAux_high
  · omega
  · intro j
    have harith : 0 + n + 1 + j - 1 = n + j := by omega
    rw [harith]
    unfold statusMapOf
    congr 1
    exact (List.get?_drop l n j).symm

theorem spliceInsert_length {l : List ScriptStep} {x : ScriptStep} {n : Nat}
    (hn : n ≤ l.length) : (spliceInsert n x l).length = l.length + 1 := by
  unfold spliceInsert
  simp [List.length_take]
  omega

theorem spliceInsert_get_lt {l : List ScriptStep} {x : ScriptStep}
    {n p : Nat} (hp : p < n) (hpl : p < l.length) :
    (spliceInsert n x l).get? p = l.get? p := by
  unfold spliceInsert
  rw [List.get?_append (by simp [List.length_take]; omega)]
  exact List.get?_take hp

theorem spliceInsert_get_ge {l : List ScriptStep} {x : ScriptStep}
    {n p : Nat} (hn : n ≤ l.length) (hp : n ≤ p) :
    (spliceInsert n x l).get? (p + 1) = l.get? p := by
  unfold spliceInsert
  have hlen : (l.take n).length = n := by
    simp [List.length_take]
    omega
  rw [List.get?_append_right (by rw [hlen]; omega), hlen]
  have harith : p + 1 - n = (p - n) + 1 := by omega
  rw [harith, List.get?_cons_succ, List.get?_drop]
  congr 1
  omega

/-- Claim C1: a successfully applied Insert with `insertAfterIndex = k`
splices the new step at `k + 1` (length grows by one); every step
originally at a position `≥ k + 1` moves right by one slot as the very
same record, so its prior `success`/`error` status is retained; and the
cursor-update rule advances the cursor to `i + 1` exactly when `k < i`. -/
theorem insert_splice_shift (env : RepairEnv) (tick : Nat) (ctx : Str)
    (steps : List ScriptStep) (ns : ScriptStep) (k : Int) (i : Nat)
    (hexec : env.exec tick = none)
    (hn : (k + 1).toNat ≤ steps.length) :
    (applyRepairActionInContext env tick
        ⟨.INSERT, some i, some ns, some k⟩ steps ctx).result.success = true
    ∧ (applyRepairActionInContext env tick
        ⟨.INSERT, some i, some ns, some k⟩ steps ctx).steps.length
      = steps.length + 1
    ∧ (applyRepairActionInContext env tick
        ⟨.INSERT, some i, some ns, some k⟩ steps ctx).steps
      = steps.take (k + 1).toNat
        ++ ({ ns with success := some false, error := none } : ScriptStep)
          :: steps.drop (k + 1).toNat
    ∧ (∀ p, p < (k + 1).toNat →
        (applyRepairActionInContext env tick
          ⟨.INSERT, some i, some ns, some k⟩ steps ctx).steps.get? p
        = steps.get? p)
    ∧ (∀ p, (k + 1).toNat ≤ p →
        (applyRepairActionInContext env tick
          ⟨.INSERT, some i, some ns, some k⟩ steps ctx).steps.get? (p + 1)
        = steps.get? p)
    ∧ (k < (i : Int) → insertCursorUpdate (some k) i = i + 1)
    ∧ (¬ k < (i : Int) → insertCursorUpdate (some k) i = i) := by
  have key : applyRepairActionInContext env tick
      ⟨.INSERT, some i, some ns, some k⟩ steps ctx
      = ⟨⟨true, none, some (ctx ++ ns.code)⟩,
         spliceInsert (k + 1).toNat
           { ns with success := some false, error := none } steps,
         tick + 1⟩ := by
    unfold applyRepairActionInContext
    simp only [hexec]
    rw [restoreStatuses_splice_id _ _ _ hn]
  refine ⟨by rw [key], ?_, ?_, ?_, ?_, ?_, ?_⟩
  · rw [key]
    exact spliceInsert_length hn
  · rw [key]
    rfl
  · intro p hp
    rw [key]
    exact spliceInsert_get_lt hp (by omega)
  · intro p hp
    rw [key]
    exact spliceInsert_get_ge hn hp
  · intro hk
    simp [insertCursorUpdate, hk]
  · intro hk
    simp [insertCursorUpdate, hk]

/-- Witness for C1 at the P2 scenario: a 3-step sequence whose middle step
(cursor `i = 1`) has failed, `Insert(insertAfterIndex = 0)` applied
successfully; additionally the engine run itself places the formerly
failing step at index 2, leaves the cursor at 2 for the next outer
iteration, and the sequence has 4 steps. -/
theorem insert_splice_shift_witness :
    ((applyRepairActionInContext
        ⟨fun t => if t = 1 then some "e1".data else none,
         fun _ => ⟨true, [],
           ⟨.INSERT, none, some ⟨"n".data, "pn".data, none, none⟩, none⟩⟩⟩ 2
        ⟨.INSERT, some 1, some ⟨"n".data, "pn".data, none, none⟩, some 0⟩
        [⟨"a".data, "pa".data, some true, none⟩,
         ⟨"b".data, "pb".data, some false, some "e1".data⟩,
         ⟨"c".data, "pc".data, none, none⟩] []).result.success = true)
    ∧ ((applyRepairActionInContext
        ⟨fun t => if t = 1 then some "e1".data else none,
         fun _ => ⟨true, [],
           ⟨.INSERT, none, some ⟨"n".data, "pn".data, none, none⟩, none⟩⟩⟩ 2
        ⟨.INSERT, some 1, some ⟨"n".data, "pn".data, none, none⟩, some 0⟩
        [⟨"a".data, "pa".data, some true, none⟩,
         ⟨"b".data, "pb".data, some false, some "e1".data⟩,
         ⟨"c".data, "pc".data, none, none⟩] []).steps.length = 4)
    ∧ ((outerIter
          ⟨fun t => if t = 1 then some "e1".data else none,
           fun _ => ⟨true, [],
             ⟨.INSERT, none, some ⟨"n".data, "pn".data, none, none⟩, none⟩⟩⟩
          (outerIter
            ⟨fun t => if t = 1 then some "e1".data else none,
             fun _ => ⟨true, [],
               ⟨.INSERT, none, some ⟨"n".data, "pn".data, none, none⟩, none⟩⟩⟩
            ⟨[⟨"a".data, "pa".data, none, none⟩,
              ⟨"b".data, "pb".data, none, none⟩,
              ⟨"c".data, "pc".data, none, none⟩], 0, 0, 0, [], []⟩).1).1.i = 2
      ∧ (outerIter
          ⟨fun t => if t = 1 then some "e1".data else none,
           fun _ => ⟨true, [],
             ⟨.INSERT, none, some ⟨"n".data, "pn".data, none, none⟩, none⟩⟩⟩
          (outerIter
            ⟨fun t => if t = 1 then some "e1".data else none,
             fun _ => ⟨true, [],
               ⟨.INSERT, none, some ⟨"n".data, "pn".data, none, none⟩, none⟩⟩⟩
            ⟨[⟨"a".data, "pa".data, none, none⟩,
              ⟨"b".data, "pb".data, none, none⟩,
              ⟨"c".data, "pc".data, none, none⟩], 0, 0, 0, [], []⟩).1).1.steps.length = 4
      ∧ (outerIter
          ⟨fun t => if t = 1 then some "e1".data else none,
           fun _ => ⟨true, [],
             ⟨.INSERT, none, some ⟨"n".data, "pn".data, none, none⟩, none⟩⟩⟩
          (outerIter
            ⟨fun t => if t = 1 then some "e1".data else none,
             fun _ => ⟨true, [],
               ⟨.INSERT, none, some ⟨"n".data, "pn".data, none, none⟩, none⟩⟩⟩
            ⟨[⟨"a".data, "pa".data, none, none⟩,
              ⟨"b".data, "pb".data, none, none⟩,
              ⟨"c".data, "pc".data, none, none⟩], 0, 0, 0, [], []⟩).1).1.steps.get? 2
        = some ⟨"b".data, "pb".data, some false, some "e1".data⟩) :=
  ⟨(insert_splice_shift _ 2 [] _ _ 0 1 (by decide) (by decide)).1,
   by decide, by decide, by decide, by decide⟩

/-- Claim C9: before applying any repair suggestion the engine overwrites
the advisor-provided indices with its own: `stepIndex := i` always, and
for an Insert `insertAfterIndex := i - 1`; consequently
`insertAfterIndex < i` holds for every applied Insert and the cursor
advances by exactly one after a successful Insert. -/
theorem override_indices_insert (a : StepRepairAction) (i : Nat) :
    (overrideIndices a i).stepIndex = some i
    ∧ (a.operation = StepOperation.INSERT →
        (overrideIndices a i).insertAfterIndex = some ((i : Int) - 1)
        ∧ (i : Int) - 1 < (i : Int)
        ∧ newCursorAfterRepair (overrideIndices a i) i = i + 1)
    ∧ (a.operation ≠ StepOperation.INSERT →
        (overrideIndices a i).insertAfterIndex = none) := by
  refine ⟨rfl, fun hop => ⟨?_, ?_, ?_⟩, fun hop => ?_⟩
  · simp [overrideIndices, hop]
  · omega
  · have hlt : (i : Int) - 1 < (i : Int) := by omega
    simp [newCursorAfterRepair, overrideIndices, hop, insertCursorUpdate, hlt]
  · simp [overrideIndices, hop]

/-- Witness for C9 at a concrete advisor action and cursor. -/
theorem override_indices_insert_witness :
    (overrideIndices ⟨.INSERT, some 7, none, some 5⟩ 3).stepIndex = some 3
    ∧ (overrideIndices ⟨.INSERT, some 7, none, some 5⟩ 3).insertAfterIndex
      = some 2
    ∧ newCursorAfterRepair (overrideIndices ⟨.INSERT, some 7, none, some 5⟩ 3) 3
      = 4 :=
  ⟨(override_indices_insert ⟨.INSERT, some 7, none, some 5⟩ 3).1,
   by decide,
   ((override_indices_insert ⟨.INSERT, some 7, none, some 5⟩ 3).2.1 rfl).2.2⟩

/-! ### Final repair classification (claims C2 and C5) -/

theorem allStepsSuccessful_iff (l : List ScriptStep) :
    allStepsSuccessful l = true ↔ (l ≠ [] ∧ ∀ s ∈ l, s.success = some true) := by
  unfold allStepsSuccessful
  simp [List.all_eq_true, List.length_pos]

theorem hasSuccessfulRepairs_iff (l : List ScriptStep) :
    hasSuccessfulRepairs l = true ↔ ∃ s ∈ l, s.success = some true := by
  unfold hasSuccessfulRepairs
  simp [List.any_eq_true]

theorem allSuccessful_exists {l : List ScriptStep}
    (h : l ≠ [] ∧ ∀ s ∈ l, s.success = some true) :
    ∃ s ∈ l, s.success = some true := by
  obtain ⟨hne, hall⟩ := h
  cases l with
  | nil => exact absurd rfl hne
  | cons a t => exact ⟨a, by simp, hall a (by simp)⟩

/-- Claim C2 (amended): after the repair loop halts, the classification of
`runWithAIRepair` is `success` iff the final sequence is non-empty and
every step has status success; `partialRepair` iff some step has status
success (regardless of whether a repair or its own plain execution caused
it) but not all do; and `failed` iff no step has status success. -/
theorem repair_status_classification (l : List ScriptStep) :
    (finalRepairStatus l = .success
      ↔ (l ≠ [] ∧ ∀ s ∈ l, s.success = some true))
    ∧ (finalRepairStatus l = .partialRepair
      ↔ ((∃ s ∈ l, s.success = some true)
          ∧ ¬ (l ≠ [] ∧ ∀ s ∈ l, s.success = some true)))
    ∧ (finalRepairStatus l = .failed
      ↔ ¬ ∃ s ∈ l, s.success = some true) := by
  by_cases hAll : l ≠ [] ∧ ∀ s ∈ l, s.success = some true
  · have h₁ : allStepsSuccessful l = true := (allStepsSuccessful_iff l).mpr hAll
    have h₂ : hasSuccessfulRepairs l = true :=
      (hasSuccessfulRepairs_iff l).mpr (allSuccessful_exists hAll)
    have hstat : finalRepairStatus l = .success := by
      unfold finalRepairStatus
      rw [h₁, h₂]
      simp
    rw [hstat]
    refine ⟨iff_of_true rfl hAll, ?_, ?_⟩
    · simp only [false_iff, reduceCtorEq]
      intro hcon
      exact hcon.2 hAll
    · simp only [false_iff, reduceCtorEq, not_not]
      exact allSuccessful_exists hAll
  · have h₁ : allStepsSuccessful l = false := by
      rw [← Bool.not_eq_true, allStepsSuccessful_iff]
      exact hAll
    by_cases hEx : ∃ s ∈ l, s.success = some true
    · have h₂ : hasSuccessfulRepairs l = true :=
        (hasSuccessfulRepairs_iff l).mpr hEx
      have hstat : finalRepairStatus l = .partialRepair := by
        unfold finalRepairStatus
        rw [h₁, h₂]
        simp
      rw [hstat]
      refine ⟨by simp [hAll], by simp [hEx, hAll], by simp [hEx]⟩
    · have h₂ : hasSuccessfulRepairs l = false := by
        rw [← Bool.not_eq_true, hasSuccessfulRepairs_iff]
        exact hEx
      have hstat : finalRepairStatus l = .failed := by
        unfold finalRepairStatus
        rw [h₂]
        simp
      rw [hstat]
      refine ⟨?_, by simp [hEx], by simp [hEx]⟩
      simp only [false_iff, reduceCtorEq]
      intro hcon
      exact hEx (allSuccessful_exists hcon)

/-- Counterexample to C2 as stated: a two-step script whose first step
executes successfully on its own, whose second step fails, and whose
repair attempts all fail to apply, is classified `'partial'` although no
step ever transitioned to success via a repair action (the buffer of
successful repairs is empty at the end of the run); furthermore an empty
final sequence is classified `'failed'` although trivially every step of
it has status success. -/
theorem repair_status_partial_without_repairs_cex :
    ((repairStepsWithAI
        ⟨fun t => if t = 0 then none else some "boom".data,
         fun _ => ⟨true, [],
           ⟨.MODIFY, none, some ⟨"f".data, "pf".data, none, none⟩, none⟩⟩⟩ 10
        [⟨"a".data, "pa".data, none, none⟩,
         ⟨"b".data, "pb".data, none, none⟩]).map
        (fun st => (finalRepairStatus st.steps, st.recentRepairs))
      = some (.partialRepair, []))
    ∧ finalRepairStatus [] = .failed
    ∧ ∀ s ∈ ([] : List ScriptStep), s.success = some true := by
  exact ⟨by decide, by decide, by simp⟩

/-! ### Frame lemmas: a failed inner repair loop only disturbs the slot
region of the failing step (claim C5) -/

theorem set_append_right_of_add {α : Type} (A : List α) (B : List α)
    (j : Nat) (x : α) : (A ++ B).set (A.length + j) x = A ++ B.set j x := by
  induction A with
  | nil => simp
  | cons a A ih =>
    have : (a :: A).length + j = (A.length + j) + 1 := by
      simp [List.length_cons]
      omega
    rw [this, List.cons_append, List.set_cons_succ, ih, List.cons_append]

theorem set_append_left_of_lt {α : Type} (g C : List α) {j : Nat}
    (hj : j < g.length) (x : α) : (g ++ C).set j x = g.set j x ++ C := by
  induction g generalizing j with
  | nil => simp at hj
  | cons a g ih =>
    cases j with
    | zero => rfl
    | succ m =>
      rw [List.cons_append, List.set_cons_succ, ih (by simpa using hj),
        List.set_cons_succ, List.cons_append]

theorem get?_append_add {α : Type} (A B : List α) (j : Nat) :
    (A ++ B).get? (A.length + j) = B.get? j := by
  rw [List.get?_append_right (Nat.le_add_right _ _)]
  congr 1
  omega

/-- A slot region containing a failed step. -/
def hasFailedSlot (g : List ScriptStep) : Prop :=
  ∃ q s, g.get? q = some s ∧ s.success = some false

theorem hasFailedSlot_ne_nil {g : List ScriptStep} (h : hasFailedSlot g) :
    g ≠ [] := by
  obtain ⟨q, s, hq, _⟩ := h
  intro habs
  subst habs
  simp at hq

theorem hasFailedSlot_set {g : List ScriptStep} {j : Nat} {y : ScriptStep}
    (h : hasFailedSlot g)
    (hy : ∀ s, g.get? j = some s → y.success = s.success) :
    hasFailedSlot (g.set j y) := by
  obtain ⟨q, s, hq, hs⟩ := h
  by_cases hqj : q = j
  · subst hqj
    have hlt : q < g.length := by
      by_contra hge
      rw [List.get?_eq_none.mpr (by omega)] at hq
      exact Option.noConfusion hq
    exact ⟨q, y, List.get?_set_eq_of_lt y hlt, by rw [hy s hq]; exact hs⟩
  · exact ⟨q, s, by rw [List.get?_set_ne y g (fun h => hqj h.symm)]; exact hq, hs⟩

/-- Decomposition of the current step array around the failing slot. -/
def frameForm (i₀ : Nat) (orig g : List ScriptStep) : List ScriptStep :=
  orig.take i₀ ++ (g ++ orig.drop (i₀ + 1))

theorem frameForm_take_length {i₀ : Nat} {orig : List ScriptStep}
    (hi : i₀ ≤ orig.length) : (orig.take i₀).length = i₀ := by
  simp [List.length_take]
  omega

theorem frameForm_length_ge {i₀ : Nat} {orig g : List ScriptStep}
    (hi : i₀ ≤ orig.length) : i₀ ≤ (frameForm i₀ orig g).length := by
  unfold frameForm
  rw [List.length_append, frameForm_take_length hi]
  omega

theorem frameForm_set {i₀ : Nat} {orig g : List ScriptStep}
    (hi : i₀ ≤ orig.length) {j : Nat} (hj : j < g.length) (x : ScriptStep) :
    (frameForm i₀ orig g).set (i₀ + j) x = frameForm i₀ orig (g.set j x) := by
  have hA := @frameForm_take_length _ orig hi
  unfold frameForm
  calc (orig.take i₀ ++ (g ++ orig.drop (i₀ + 1))).set (i₀ + j) x
      = (orig.take i₀ ++ (g ++ orig.drop (i₀ + 1))).set
          ((orig.take i₀).length + j) x := by rw [hA]
    _ = orig.take i₀ ++ ((g ++ orig.drop (i₀ + 1)).set j x) :=
        set_append_right_of_add _ _ _ _
    _ = orig.take i₀ ++ (g.set j x ++ orig.drop (i₀ + 1)) := by
        rw [set_append_left_of_lt _ _ hj]

theorem frameForm_get? {i₀ : Nat} {orig g : List ScriptStep}
    (hi : i₀ ≤ orig.length) {j : Nat} (hj : j < g.length) :
    (frameForm i₀ orig g).get? (i₀ + j) = g.get? j := by
  have hA := @frameForm_take_length _ orig hi
  unfold frameForm
  calc (orig.take i₀ ++ (g ++ orig.drop (i₀ + 1))).get? (i₀ + j)
      = (orig.take i₀ ++ (g ++ orig.drop (i₀ + 1))).get?
          ((orig.take i₀).length + j) := by rw [hA]
    _ = (g ++ orig.drop (i₀ + 1)).get? j := get?_append_add _ _ _
    _ = g.get? j := List.get?_append hj

theorem frameForm_splice {i₀ : Nat} {orig g : List ScriptStep}
    (hi : i₀ ≤ orig.length) (x : ScriptStep) :
    spliceInsert i₀ x (frameForm i₀ orig g) = frameForm i₀ orig (x :: g) := by
  have hA := @frameForm_take_length _ orig hi
  unfold spliceInsert frameForm
  calc (orig.take i₀ ++ (g ++ orig.drop (i₀ + 1))).take i₀
        ++ x :: (orig.take i₀ ++ (g ++ orig.drop (i₀ + 1))).drop i₀
      = (orig.take i₀ ++ (g ++ orig.drop (i₀ + 1))).take (orig.take i₀).length
        ++ x :: (orig.take i₀ ++ (g ++ orig.drop (i₀ + 1))).drop
            (orig.take i₀).length := by rw [hA]
    _ = orig.take i₀ ++ x :: (g ++ orig.drop (i₀ + 1)) := by
        rw [List.take_left, List.drop_left]
    _ = orig.take i₀ ++ ((x :: g) ++ orig.drop (i₀ + 1)) := by simp

theorem setStepError_framed {i₀ : Nat} {orig g : List ScriptStep}
    (hi : i₀ ≤ orig.length) (hg : hasFailedSlot g) {p : Nat}
    (hp₁ : i₀ ≤ p) (hp₂ : p < i₀ + g.length) (msg : Str) :
    ∃ g₂, g₂.length = g.length ∧ hasFailedSlot g₂
      ∧ setStepError p msg (frameForm i₀ orig g) = frameForm i₀ orig g₂ := by
  have hj : p - i₀ < g.length := by omega
  have hip : i₀ + (p - i₀) = p := by omega
  cases hget : g.get? (p - i₀) with
  | none =>
    rw [List.get?_eq_none] at hget
    omega
  | some s =>
    refine ⟨g.set (p - i₀) { s with error := some msg }, by simp, ?_, ?_⟩
    · exact hasFailedSlot_set hg (fun s₂ hs₂ => by
        rw [hget] at hs₂
        cases hs₂
        rfl)
    · have hscrut : (frameForm i₀ orig g).get? p = some s := by
        rw [← hip, frameForm_get? hi hj]
        exact hget
      unfold setStepError
      rw [hscrut]
      show (frameForm i₀ orig g).set p { s with error := some msg } = _
      rw [← hip, frameForm_set hi hj]
      have harith : i₀ + (p - i₀) - i₀ = p - i₀ := by omega
      rw [harith]

/-- The write of the attempt error through the step alias, as a function
of the alias position. -/
def errorWriteResult (ap : Option Nat) (msg : Str) (l : List ScriptStep) :
    List ScriptStep :=
  match ap with
  | some p => setStepError p msg l
  | none => l

theorem frame_after_error_write {i₀ : Nat} {orig g : List ScriptStep}
    (hi : i₀ ≤ orig.length) (hg : hasFailedSlot g) {ap : Option Nat}
    (hap : ∀ p, ap = some p → i₀ ≤ p ∧ p < i₀ + g.length) (msg : Str) :
    ∃ g₂, g₂.length = g.length ∧ hasFailedSlot g₂
      ∧ errorWriteResult ap msg (frameForm i₀ orig g) = frameForm i₀ orig g₂ := by
  cases ap with
  | none => exact ⟨g, rfl, hg, rfl⟩
  | some p =>
    obtain ⟨hp₁, hp₂⟩ := hap p rfl
    exact setStepError_framed hi hg hp₁ hp₂ msg

theorem apply_override_modify_none (env : RepairEnv) (tick : Nat)
    (a : StepRepairAction) (i : Nat) (steps : List ScriptStep) (ctx : Str)
    (hop : a.operation = .MODIFY) (hns : a.newStep = none) :
    applyRepairActionInContext env tick (overrideIndices a i) steps ctx
      = ⟨⟨false, some "Invalid repair action".data, none⟩, steps, tick⟩ := by
  unfold applyRepairActionInContext overrideIndices
  simp [hop, hns]

theorem apply_override_modify_fail (env : RepairEnv) (tick : Nat)
    (a : StepRepairAction) (i : Nat) (steps : List ScriptStep) (ctx : Str)
    (ns : ScriptStep) (err : Str)
    (hop : a.operation = .MODIFY) (hns : a.newStep = some ns)
    (hexec : env.exec tick = some err) :
    applyRepairActionInContext env tick (overrideIndices a i) steps ctx
      = ⟨⟨false, some err, none⟩,
         steps.set i { ns with success := some false, error := none },
         tick + 1⟩ := by
  unfold applyRepairActionInContext overrideIndices
  simp [hop, hns, hexec]

theorem apply_override_modify_ok (env : RepairEnv) (tick : Nat)
    (a : StepRepairAction) (i : Nat) (steps : List ScriptStep) (ctx : Str)
    (ns : ScriptStep)
    (hop : a.operation = .MODIFY) (hns : a.newStep = some ns)
    (hexec : env.exec tick = none) :
    applyRepairActionInContext env tick (overrideIndices a i) steps ctx
      = ⟨⟨true, none, some (ctx ++ ns.code)⟩,
         steps.set i { ns with success := some false, error := none },
         tick + 1⟩ := by
  unfold applyRepairActionInContext overrideIndices
  simp [hop, hns, hexec]

theorem apply_override_insert_none (env : RepairEnv) (tick : Nat)
    (a : StepRepairAction) (i : Nat) (steps : List ScriptStep) (ctx : Str)
    (hop : a.operation = .INSERT) (hns : a.newStep = none) :
    applyRepairActionInContext env tick (overrideIndices a i) steps ctx
      = ⟨⟨false, some "Invalid repair action".data, none⟩, steps, tick⟩ := by
  unfold applyRepairActionInContext overrideIndices
  simp [hop, hns]

theorem apply_override_insert_fail (env : RepairEnv) (tick : Nat)
    (a : StepRepairAction) (i : Nat) (steps : List ScriptStep) (ctx : Str)
    (ns : ScriptStep) (err : Str)
    (hop : a.operation = .INSERT) (hns : a.newStep = some ns)
    (hexec : env.exec tick = some err) (hle : i ≤ steps.length) :
    applyRepairActionInContext env tick (overrideIndices a i) steps ctx
      = ⟨⟨false, some err, none⟩,
         spliceInsert i { ns with success := some false, error := none } steps,
         tick + 1⟩ := by
  have hidx : (((i : Int) - 1) + 1).toNat = i := by omega
  unfold applyRepairActionInContext overrideIndices
  simp only [hop, hns, hexec, if_true, hidx]
  rw [restoreStatuses_splice_id _ _ _ hle]

theorem apply_override_insert_ok (env : RepairEnv) (tick : Nat)
    (a : StepRepairAction) (i : Nat) (steps : List ScriptStep) (ctx : Str)
    (ns : ScriptStep)
    (hop : a.operation = .INSERT) (hns : a.newStep = some ns)
    (hexec : env.exec tick = none) (hle : i ≤ steps.length) :
    applyRepairActionInContext env tick (overrideIndices a i) steps ctx
      = ⟨⟨true, none, some (ctx ++ ns.code)⟩,
         spliceInsert i { ns with success := some false, error := none } steps,
         tick + 1⟩ := by
  have hidx : (((i : Int) - 1) + 1).toNat = i := by omega
  unfold applyRepairActionInContext overrideIndices
  simp only [hop, hns, hexec, if_true, hidx]
  rw [restoreStatuses_splice_id _ _ _ hle]

theorem apply_override_remove (env : RepairEnv) (tick : Nat)
    (a : StepRepairAction) (i : Nat) (steps : List ScriptStep) (ctx : Str)
    (hop : a.operation = .REMOVE) :
    applyRepairActionInContext env tick (overrideIndices a i) steps ctx
      = ⟨⟨true, none, some ctx⟩, steps.eraseIdx i, tick⟩ := by
  unfold applyRepairActionInContext overrideIndices
  simp [hop]

theorem innerLoop_succ_stop (env : RepairEnv) (i₀ : Nat) (d c : Str)
    (n att : Nat) (ist : InnerState)
    (hsc : (env.advisor ist.advTick).shouldContinue = false) :
    innerLoop env i₀ d c (n + 1) att ist
      = ({ ist with advTick := ist.advTick + 1 }, false, i₀) := by
  rw [innerLoop]
  simp only [hsc, eq_self_iff_true, if_true]

theorem innerLoop_succ_apply_ok (env : RepairEnv) (i₀ : Nat) (d c : Str)
    (n att : Nat) (ist : InnerState)
    (hsc : (env.advisor ist.advTick).shouldContinue = true)
    (hok : (applyRepairActionInContext env ist.execTick
        (overrideIndices (env.advisor ist.advTick).action i₀) ist.steps
        ist.executionContext).result.success = true) :
    (innerLoop env i₀ d c (n + 1) att ist).2.1 = true := by
  rw [innerLoop]
  simp only [hsc, Bool.true_eq_false, if_false, hok, eq_self_iff_true, if_true]

theorem innerLoop_succ_fail_step (env : RepairEnv) (i₀ : Nat) (d c : Str)
    (n att : Nat) (ist : InnerState)
    (hsc : (env.advisor ist.advTick).shouldContinue = true)
    (hfail : (applyRepairActionInContext env ist.execTick
        (overrideIndices (env.advisor ist.advTick).action i₀) ist.steps
        ist.executionContext).result.success = false) :
    innerLoop env i₀ d c (n + 1) att ist
      = innerLoop env i₀ d c n (att + 1)
          { ist with
              advTick := ist.advTick + 1,
              steps :=
                errorWriteResult
                  (updateAliasPos
                    (overrideIndices (env.advisor ist.advTick).action i₀)
                    ist.aliasPos)
                  (repairErrMsg (applyRepairActionInContext env ist.execTick
                    (overrideIndices (env.advisor ist.advTick).action i₀)
                    ist.steps ist.executionContext).result.error)
                  (applyRepairActionInContext env ist.execTick
                    (overrideIndices (env.advisor ist.advTick).action i₀)
                    ist.steps ist.executionContext).steps,
              aliasPos :=
                updateAliasPos
                  (overrideIndices (env.advisor ist.advTick).action i₀)
                  ist.aliasPos,
              execTick :=
                (applyRepairActionInContext env ist.execTick
                  (overrideIndices (env.advisor ist.advTick).action i₀)
                  ist.steps ist.executionContext).execTick,
              repairHistory :=
                ist.repairHistory
                  ++ [(att, (env.advisor ist.advTick).action,
                       repairErrMsg (applyRepairActionInContext env ist.execTick
                        (overrideIndices (env.advisor ist.advTick).action i₀)
                        ist.steps ist.executionContext).result.error)] } := by
  rw [innerLoop]
  simp only [hsc, Bool.true_eq_false, if_false, hfail, Bool.false_eq_true]
  rfl

theorem frameForm_set_zero {i₀ : Nat} {orig g : List ScriptStep}
    (hi : i₀ ≤ orig.length) (hg : 0 < g.length) (x : ScriptStep) :
    (frameForm i₀ orig g).set i₀ x = frameForm i₀ orig (g.set 0 x) := by
  have h := @frameForm_set _ orig g hi 0 hg x
  simpa using h

/-- Invariant of the inner repair loop: the current array is the original
one with only the failing-slot region `g` replaced; `g` still contains a
step marked failed; and the alias position, when live, lies inside the
region. -/
def innerFrame (i₀ : Nat) (orig : List ScriptStep) (ist : InnerState) : Prop :=
  ∃ g : List ScriptStep,
    hasFailedSlot g
    ∧ ist.steps = frameForm i₀ orig g
    ∧ (∀ p, ist.aliasPos = some p → i₀ ≤ p ∧ p < i₀ + g.length)

theorem innerFrame_mk {i₀ : Nat} {orig : List ScriptStep} {ist : InnerState}
    {g₂ : List ScriptStep} {msg : Str}
    (hi : i₀ ≤ orig.length)
    (hslot : hasFailedSlot g₂)
    (hsteps : ist.steps
      = errorWriteResult ist.aliasPos msg (frameForm i₀ orig g₂))
    (hrange : ∀ p, ist.aliasPos = some p → i₀ ≤ p ∧ p < i₀ + g₂.length) :
    innerFrame i₀ orig ist := by
  obtain ⟨g₃, hlen, hslot₃, heq⟩ := frame_after_error_write hi hslot hrange msg
  refine ⟨g₃, hslot₃, by rw [hsteps, heq], fun p hp => ?_⟩
  have := hrange p hp
  omega

theorem innerLoop_frame (env : RepairEnv) (i₀ : Nat) (d c : Str)
    (orig : List ScriptStep) (hi : i₀ ≤ orig.length) :
    ∀ (n att : Nat) (ist : InnerState), innerFrame i₀ orig ist →
      (innerLoop env i₀ d c n att ist).2.1 = false →
      innerFrame i₀ orig (innerLoop env i₀ d c n att ist).1
      ∧ (innerLoop env i₀ d c n att ist).2.2 = i₀ := by
  intro n
  induction n with
  | zero =>
    intro att ist hf _
    exact ⟨hf, rfl⟩
  | succ n ih =>
    intro att ist hf hok
    obtain ⟨g, hgslot, hgsteps, hgalias⟩ := hf
    by_cases hsc : (env.advisor ist.advTick).shouldContinue = false
    · rw [innerLoop_succ_stop env i₀ d c n att ist hsc] at hok ⊢
      exact ⟨⟨g, hgslot, hgsteps, hgalias⟩, rfl⟩
    · have hsc₂ : (env.advisor ist.advTick).shouldContinue = true := by
        revert hsc
        cases (env.advisor ist.advTick).shouldContinue <;> simp
      by_cases hsucc : (applyRepairActionInContext env ist.execTick
          (overrideIndices (env.advisor ist.advTick).action i₀) ist.steps
          ist.executionContext).result.success = true
      · rw [innerLoop_succ_apply_ok env i₀ d c n att ist hsc₂ hsucc] at hok
        exact absurd hok (by simp)
      · have hfail : (applyRepairActionInContext env ist.execTick
            (overrideIndices (env.advisor ist.advTick).action i₀) ist.steps
            ist.executionContext).result.success = false := by
          revert hsucc
          cases (applyRepairActionInContext env ist.execTick
            (overrideIndices (env.advisor ist.advTick).action i₀) ist.steps
            ist.executionContext).result.success <;> simp
        rw [innerLoop_succ_fail_step env i₀ d c n att ist hsc₂ hfail] at hok ⊢
        refine ih (att + 1) _ ?_ hok
        have hg0 : 0 < g.length := by
          have hne := hasFailedSlot_ne_nil hgslot
          cases g with
          | nil => exact absurd rfl hne
          | cons a t => simp
        cases hop : (env.advisor ist.advTick).action.operation with
        | REMOVE =>
          rw [apply_override_remove env ist.execTick _ i₀ ist.steps
            ist.executionContext hop] at hfail
          exact absurd hfail (by simp)
        | MODIFY =>
          cases hns : (env.advisor ist.advTick).action.newStep with
          | none =>
            have happ := apply_override_modify_none env ist.execTick _ i₀
              ist.steps ist.executionContext hop hns
            have halias : updateAliasPos
                (overrideIndices (env.advisor ist.advTick).action i₀)
                ist.aliasPos = ist.aliasPos := by
              simp [updateAliasPos, overrideIndices, hop, hns]
            apply @innerFrame_mk _ _ _ g _ hi hgslot
            · show errorWriteResult _ _ (applyRepairActionInContext env
                  ist.execTick (overrideIndices
                    (env.advisor ist.advTick).action i₀) ist.steps
                  ist.executionContext).steps = _
              rw [happ, halias, hgsteps]
            · intro p hp
              show i₀ ≤ p ∧ p < i₀ + g.length
              have hp₂ : ist.aliasPos = some p := by
                rw [← halias]
                exact hp
              exact hgalias p hp₂
          | some ns =>
            cases hexec : env.exec ist.execTick with
            | none =>
              rw [apply_override_modify_ok env ist.execTick _ i₀ ist.steps
                ist.executionContext ns hop hns hexec] at hfail
              exact absurd hfail (by simp)
            | some err =>
              have happ := apply_override_modify_fail env ist.execTick _ i₀
                ist.steps ist.executionContext ns err hop hns hexec
              have halias : updateAliasPos
                  (overrideIndices (env.advisor ist.advTick).action i₀)
                  ist.aliasPos
                  = (match ist.aliasPos with
                     | some q => if q = i₀ then none else some q
                     | none => none) := by
                simp [updateAliasPos, overrideIndices, hop, hns]
              apply @innerFrame_mk _ _ _
                (g.set 0 { ns with success := some false, error := none }) _
                hi
              · exact ⟨0, _, List.get?_set_eq_of_lt _ hg0, rfl⟩
              · show errorWriteResult _ _ (applyRepairActionInContext env
                    ist.execTick (overrideIndices
                      (env.advisor ist.advTick).action i₀) ist.steps
                    ist.executionContext).steps = _
                rw [happ]
                show errorWriteResult _ _
                    (ist.steps.set i₀
                      { ns with success := some false, error := none }) = _
                rw [hgsteps, frameForm_set_zero hi hg0]
              · intro p hp
                have hp₂ : (match ist.aliasPos with
                    | some q => if q = i₀ then none else some q
                    | none => none) = some p := by
                  rw [← halias]
                  exact hp
                cases hap : ist.aliasPos with
                | none => simp [hap] at hp₂
                | some q =>
                  simp only [hap] at hp₂
                  by_cases hqi : q = i₀
                  · rw [if_pos hqi] at hp₂
                    exact Option.noConfusion hp₂
                  · rw [if_neg hqi] at hp₂
                    cases hp₂
                    have hr := hgalias p hap
                    show i₀ ≤ p ∧ p < i₀ + (g.set 0 _).length
                    simp only [List.length_set]
                    exact hr
        | INSERT =>
          cases hns : (env.advisor ist.advTick).action.newStep with
          | none =>
            have happ := apply_override_insert_none env ist.execTick _ i₀
              ist.steps ist.executionContext hop hns
            have halias : updateAliasPos
                (overrideIndices (env.advisor ist.advTick).action i₀)
                ist.aliasPos = ist.aliasPos := by
              simp [updateAliasPos, overrideIndices, hop, hns]
            apply @innerFrame_mk _ _ _ g _ hi hgslot
            · show errorWriteResult _ _ (applyRepairActionInContext env
                  ist.execTick (overrideIndices
                    (env.advisor ist.advTick).action i₀) ist.steps
                  ist.executionContext).steps = _
              rw [happ, halias, hgsteps]
            · intro p hp
              show i₀ ≤ p ∧ p < i₀ + g.length
              have hp₂ : ist.aliasPos = some p := by
                rw [← halias]
                exact hp
              exact hgalias p hp₂
          | some ns =>
            have hle : i₀ ≤ ist.steps.length := by
              rw [hgsteps]
              exact frameForm_length_ge hi
            cases hexec : env.exec ist.execTick with
            | none =>
              rw [apply_override_insert_ok env ist.execTick _ i₀ ist.steps
                ist.executionContext ns hop hns hexec hle] at hfail
              exact absurd hfail (by simp)
            | some err =>
              have happ := apply_override_insert_fail env ist.execTick _ i₀
                ist.steps ist.executionContext ns err hop hns hexec hle
              have hidx : (((i₀ : Int) - 1) + 1).toNat = i₀ := by omega
              have halias : updateAliasPos
                  (overrideIndices (env.advisor ist.advTick).action i₀)
                  ist.aliasPos
                  = (match ist.aliasPos with
                     | some q => if i₀ ≤ q then some (q + 1) else some q
                     | none => none) := by
                simp [updateAliasPos, overrideIndices, hop, hns, hidx]
              apply @innerFrame_mk _ _ _
                ({ ns with success := some false, error := none } :: g) _
                hi
              · exact ⟨0, _, rfl, rfl⟩
              · show errorWriteResult _ _ (applyRepairActionInContext env
                    ist.execTick (overrideIndices
                      (env.advisor ist.advTick).action i₀) ist.steps
                    ist.executionContext).steps = _
                rw [happ]
                show errorWriteResult _ _
                    (spliceInsert i₀
                      { ns with success := some false, error := none }
                      ist.steps) = _
                rw [hgsteps, frameForm_splice hi]
              · intro p hp
                have hp₂ : (match ist.aliasPos with
                    | some q => if i₀ ≤ q then some (q + 1) else some q
                    | none => none) = some p := by
                  rw [← halias]
                  exact hp
                cases hap : ist.aliasPos with
                | none => simp [hap] at hp₂
                | some q =>
                  simp only [hap] at hp₂
                  have hr := hgalias q hap
                  rw [if_pos hr.1] at hp₂
                  cases hp₂
                  show i₀ ≤ q + 1 ∧ q + 1 < i₀ + (_ :: g).length
                  simp only [List.length_cons]
                  omega

/-- Claim C5 (amended): when the step under the cursor fails and the inner
repair loop exhausts its 3 attempts without a successful apply, the outer
loop halts right there: the run returns with the cursor still at the
failing position, the steps before the cursor and the steps after it are
byte-for-byte unchanged (so all subsequent steps remain unexecuted), and
the final `repair_status` is `'partial'` iff some step in the final
sequence carries status success — whether a repair or plain execution
produced it — and `'failed'` when none does. -/
theorem repair_exhaustion_halts (env : RepairEnv) (st : LoopState)
    (step : ScriptStep) (e : Str) (n : Nat)
    (hstep : st.steps.get? st.i = some step)
    (hfail : env.exec st.execTick = some e)
    (hnorep : (innerLoop env st.i step.description step.code 3 1
        ⟨st.steps.set st.i { step with success := some false, error := some e },
         some st.i, st.execTick + 1, st.advTick, st.executionContext,
         st.recentRepairs, []⟩).2.1 = false) :
    ∃ st' g,
      runLoop env (n + 1) st = some st'
      ∧ st'.i = st.i
      ∧ hasFailedSlot g
      ∧ st'.steps = frameForm st.i st.steps g
      ∧ st'.steps.drop (st.i + g.length) = st.steps.drop (st.i + 1)
      ∧ (finalRepairStatus st'.steps = .partialRepair
          ↔ ∃ s ∈ st'.steps, s.success = some true)
      ∧ (¬ (∃ s ∈ st'.steps, s.success = some true)
          → finalRepairStatus st'.steps = .failed) := by
  have hi : st.i < st.steps.length := by
    by_contra hge
    rw [List.get?_eq_none.mpr (by omega)] at hstep
    exact Option.noConfusion hstep
  have hile : st.i ≤ st.steps.length := Nat.le_of_lt hi
  -- the outer iteration runs the inner loop and halts
  have houter : outerIter env st
      = ({ st with
            steps := (innerLoop env st.i step.description step.code 3 1
              ⟨st.steps.set st.i
                { step with success := some false, error := some e },
               some st.i, st.execTick + 1, st.advTick, st.executionContext,
               st.recentRepairs, []⟩).1.steps,
            i := (innerLoop env st.i step.description step.code 3 1
              ⟨st.steps.set st.i
                { step with success := some false, error := some e },
               some st.i, st.execTick + 1, st.advTick, st.executionContext,
               st.recentRepairs, []⟩).2.2,
            execTick := (innerLoop env st.i step.description step.code 3 1
              ⟨st.steps.set st.i
                { step with success := some false, error := some e },
               some st.i, st.execTick + 1, st.advTick, st.executionContext,
               st.recentRepairs, []⟩).1.execTick,
            advTick := (innerLoop env st.i step.description step.code 3 1
              ⟨st.steps.set st.i
                { step with success := some false, error := some e },
               some st.i, st.execTick + 1, st.advTick, st.executionContext,
               st.recentRepairs, []⟩).1.advTick,
            executionContext := (innerLoop env st.i step.description step.code
              3 1 ⟨st.steps.set st.i
                { step with success := some false, error := some e },
               some st.i, st.execTick + 1, st.advTick, st.executionContext,
               st.recentRepairs, []⟩).1.executionContext,
            recentRepairs := (innerLoop env st.i step.description step.code 3 1
              ⟨st.steps.set st.i
                { step with success := some false, error := some e },
               some st.i, st.execTick + 1, st.advTick, st.executionContext,
               st.recentRepairs, []⟩).1.recentRepairs },
         decide ((innerLoop env st.i step.description step.code 3 1
            ⟨st.steps.set st.i
              { step with success := some false, error := some e },
             some st.i, st.execTick + 1, st.advTick, st.executionContext,
             st.recentRepairs, []⟩).2.1 = false)) := by
    unfold outerIter
    rw [hstep, hfail]
  have hrun : runLoop env (n + 1) st = some (outerIter env st).1 := by
    rw [runLoop, if_pos hi]
    have hbrk : (outerIter env st).2 = true := by
      rw [houter]
      simp [hnorep]
    show (if (outerIter env st).2 = true then some (outerIter env st).1
      else runLoop env n (outerIter env st).1) = some (outerIter env st).1
    rw [hbrk]
    simp
  -- frame of the initial inner state
  have hinit : innerFrame st.i st.steps
      ⟨st.steps.set st.i { step with success := some false, error := some e },
       some st.i, st.execTick + 1, st.advTick, st.executionContext,
       st.recentRepairs, []⟩ := by
    refine ⟨[{ step with success := some false, error := some e }],
      ⟨0, _, rfl, rfl⟩, ?_, ?_⟩
    · show st.steps.set st.i _ = frameForm st.i st.steps _
      rw [List.set_eq_take_cons_drop _ hi]
      rfl
    · intro p hp
      cases hp
      simp
  obtain ⟨⟨g, hgslot, hgsteps, _⟩, hcursor⟩ :=
    innerLoop_frame env st.i step.description step.code st.steps hile 3 1
      ⟨st.steps.set st.i { step with success := some false, error := some e },
       some st.i, st.execTick + 1, st.advTick, st.executionContext,
       st.recentRepairs, []⟩ hinit hnorep
  have hmem : ∃ s ∈ (outerIter env st).1.steps, s.success = some false := by
    obtain ⟨q, s, hq, hs⟩ := hgslot
    have hql : q < g.length := by
      by_contra hge
      rw [List.get?_eq_none.mpr (by omega)] at hq
      exact Option.noConfusion hq
    refine ⟨s, ?_, hs⟩
    have hget : (outerIter env st).1.steps.get? (st.i + q) = some s := by
      rw [houter]
      show (innerLoop env st.i step.description step.code 3 1 _).1.steps.get?
        (st.i + q) = some s
      rw [hgsteps, frameForm_get? hile hql]
      exact hq
    exact List.get?_mem hget
  have hnall : allStepsSuccessful (outerIter env st).1.steps = false := by
    rw [← Bool.not_eq_true, allStepsSuccessful_iff]
    intro hcon
    obtain ⟨s, hsm, hs⟩ := hmem
    have h₃ := hcon.2 s hsm
    rw [h₃] at hs
    simp at hs
  refine ⟨(outerIter env st).1, g, hrun, ?_, hgslot, ?_, ?_, ?_, ?_⟩
  · rw [houter]
    exact hcursor
  · rw [houter]
    exact hgsteps
  · rw [houter, hgsteps]
    unfold frameForm
    have hlen : (st.steps.take st.i ++ g).length = st.i + g.length := by
      rw [List.length_append, frameForm_take_length hile]
    calc (st.steps.take st.i ++ (g ++ st.steps.drop (st.i + 1))).drop
          (st.i + g.length)
        = ((st.steps.take st.i ++ g) ++ st.steps.drop (st.i + 1)).drop
            ((st.steps.take st.i ++ g).length) := by
          rw [hlen, List.append_assoc]
      _ = st.steps.drop (st.i + 1) := List.drop_left _ _
  · -- partial iff some success
    by_cases hex : ∃ s ∈ (outerIter env st).1.steps, s.success = some true
    · have h₂ : hasSuccessfulRepairs (outerIter env st).1.steps = true :=
        (hasSuccessfulRepairs_iff _).mpr hex
      unfold finalRepairStatus
      rw [hnall, h₂]
      simp [hex]
    · have h₂ : hasSuccessfulRepairs (outerIter env st).1.steps = false := by
        rw [← Bool.not_eq_true, hasSuccessfulRepairs_iff]
        exact hex
      unfold finalRepairStatus
      rw [h₂]
      simp [hex]
  · -- no success at all: failed
    intro hex
    have h₂ : hasSuccessfulRepairs (outerIter env st).1.steps = false := by
      rw [← Bool.not_eq_true, hasSuccessfulRepairs_iff]
      exact hex
    unfold finalRepairStatus
    rw [h₂]
    simp

/-- Witness for C5: three steps, the first already successful, the second
failing with all three MODIFY repair attempts failing to apply. -/
theorem repair_exhaustion_halts_witness :
    ∃ st' g,
      runLoop (⟨fun t => if t = 0 then none else some "boom".data,
        fun _ => ⟨true, [],
          ⟨.MODIFY, none, some ⟨"f".data, "pf".data, none, none⟩, none⟩⟩⟩ : RepairEnv) (5 + 1) (⟨[⟨"a".data, "pa".data, some true, none⟩,
         ⟨"b".data, "pb".data, none, none⟩,
         ⟨"c".data, "pc".data, none, none⟩], 1, 1, 0, [], []⟩ : LoopState) = some st'
      ∧ st'.i = (⟨[⟨"a".data, "pa".data, some true, none⟩,
         ⟨"b".data, "pb".data, none, none⟩,
         ⟨"c".data, "pc".data, none, none⟩], 1, 1, 0, [], []⟩ : LoopState).i
      ∧ hasFailedSlot g
      ∧ st'.steps = frameForm (⟨[⟨"a".data, "pa".data, some true, none⟩,
         ⟨"b".data, "pb".data, none, none⟩,
         ⟨"c".data, "pc".data, none, none⟩], 1, 1, 0, [], []⟩ : LoopState).i (⟨[⟨"a".data, "pa".data, some true, none⟩,
         ⟨"b".data, "pb".data, none, none⟩,
         ⟨"c".data, "pc".data, none, none⟩], 1, 1, 0, [], []⟩ : LoopState).steps g
      ∧ st'.steps.drop ((⟨[⟨"a".data, "pa".data, some true, none⟩,
         ⟨"b".data, "pb".data, none, none⟩,
         ⟨"c".data, "pc".data, none, none⟩], 1, 1, 0, [], []⟩ : LoopState).i + g.length)
        = (⟨[⟨"a".data, "pa".data, some true, none⟩,
         ⟨"b".data, "pb".data, none, none⟩,
         ⟨"c".data, "pc".data, none, none⟩], 1, 1, 0, [], []⟩ : LoopState).steps.drop ((⟨[⟨"a".data, "pa".data, some true, none⟩,
         ⟨"b".data, "pb".data, none, none⟩,
         ⟨"c".data, "pc".data, none, none⟩], 1, 1, 0, [], []⟩ : LoopState).i + 1)
      ∧ (finalRepairStatus st'.steps = .partialRepair
          ↔ ∃ s ∈ st'.steps, s.success = some true)
      ∧ (¬ (∃ s ∈ st'.steps, s.success = some true)
          → finalRepairStatus st'.steps = .failed) :=
  repair_exhaustion_halts (⟨fun t => if t = 0 then none else some "boom".data,
        fun _ => ⟨true, [],
          ⟨.MODIFY, none, some ⟨"f".data, "pf".data, none, none⟩, none⟩⟩⟩ : RepairEnv) (⟨[⟨"a".data, "pa".data, some true, none⟩,
         ⟨"b".data, "pb".data, none, none⟩,
         ⟨"c".data, "pc".data, none, none⟩], 1, 1, 0, [], []⟩ : LoopState)
    ⟨"b".data, "pb".data, none, none⟩ "boom".data 5
    (by decide) (by decide) (by decide)

/-- Counterexample to C5 as stated: at the exhaustion halt of the same
scenario (first step succeeded on its own, no repair ever applied — no
entry was ever recorded in the successful-repairs buffer), the resulting
`repair_status` is `'partial'`, not `'failed'` as the claim requires when
no earlier step had a successful repair; the cursor stays at 1 and the
third step is left unexecuted. -/
theorem exhaustion_partial_without_repairs_cex :
    (repairStepsWithAI
        ⟨fun t => if t = 0 then none else some "boom".data,
         fun _ => ⟨true, [],
           ⟨.MODIFY, none, some ⟨"f".data, "pf".data, none, none⟩, none⟩⟩⟩ 10
        [⟨"a".data, "pa".data, none, none⟩,
         ⟨"b".data, "pb".data, none, none⟩,
         ⟨"c".data, "pc".data, none, none⟩]).map
        (fun st => (finalRepairStatus st.steps, st.recentRepairs, st.i,
          st.steps.map (fun s => s.success)))
      = some (.partialRepair, [], 1, [some true, some false, none]) := by
  decide

/-! ### The scenario worker pool (`scenario-service.ts`)

Workers and jobs are identified by numbers; `busyWorkers` models the JS
`Set`; `inflight` holds the suspended `processScenarioJob` awaits (the
jobs currently being processed, with their worker).  JS runs each
synchronous segment between awaits atomically, so a pool transition is:
the synchronous prefix of `processNextJob` (dispatch), or the
continuation run when a job's await settles (fulfilled or rejected). -/

/-- Events emitted by the pool (`jobComplete` / `jobError`). -/
inductive PoolEmit
  | jobComplete (j : Nat)
  | jobError (j : Nat)
deriving DecidableEq, Repr

/-- Pool state: FIFO queue, busy set, suspended jobs, emitted events. -/
structure PoolState where
  jobQueue : List Nat
  busyWorkers : List Nat
  inflight : List (Nat × Nat)
  emitted : List PoolEmit
deriving DecidableEq, Repr

/-- `this.workers.find(worker => !this.busyWorkers.has(worker))`. -/
def findAvailableWorker (maxWorkers : Nat) (busy : List Nat) : Option Nat :=
  (List.range maxWorkers).find? (fun w => ¬ busy.contains w)

/-- JS `Set.add`. -/
def addBusy (w : Nat) (busy : List Nat) : List Nat :=
  if w ∈ busy then busy else busy ++ [w]

/-- The synchronous prefix of `processNextJob` (source lines 70-96): if the
queue is non-empty and a worker is free, shift the head job, mark the
worker busy, and start the job (the await suspends, leaving the pair in
flight). -/
def processNextJob (maxWorkers : Nat) (s : PoolState) : PoolState :=
  if s.jobQueue = [] then s
  else
    match findAvailableWorker maxWorkers s.busyWorkers with
    | none => s
    | some w =>
      match s.jobQueue with
      | [] => s
      | j :: rest =>
        { s with
            jobQueue := rest,
            busyWorkers := addBusy w s.busyWorkers,
            inflight := s.inflight ++ [(w, j)] }

/-- `processScenario` (source lines 50-68): enqueue then dispatch. -/
def submitJob (maxWorkers : Nat) (j : Nat) (s : PoolState) : PoolState :=
  processNextJob maxWorkers { s with jobQueue := s.jobQueue ++ [j] }

/-- Continuation run when `processScenarioJob` fulfils (source lines
96-109 with `handleJobResult`, lines 112-119): emit `jobComplete`, clear
the WHOLE busy set, dispatch, then the `finally` erases this worker from
the busy set and dispatches again. -/
def completeJobOk (maxWorkers : Nat) (w j : Nat) (s : PoolState) :
    PoolState :=
  let s₁ := { s with inflight := s.inflight.erase (w, j) }
  let s₂ := { s₁ with
      emitted := s₁.emitted ++ [PoolEmit.jobComplete j], busyWorkers := [] }
  let s₃ := processNextJob maxWorkers s₂
  let s₄ := { s₃ with busyWorkers := s₃.busyWorkers.erase w }
  processNextJob maxWorkers s₄

/-- Continuation run when `processScenarioJob` rejects (source lines
99-109): emit `jobError`, unshift the job back to the queue front, then
the `finally` frees the worker and dispatches. -/
def completeJobError (maxWorkers : Nat) (w j : Nat) (s : PoolState) :
    PoolState :=
  let s₁ := { s with inflight := s.inflight.erase (w, j) }
  let s₂ := { s₁ with
      emitted := s₁.emitted ++ [PoolEmit.jobError j],
      jobQueue := j :: s₁.jobQueue }
  let s₃ := { s₂ with busyWorkers := s₂.busyWorkers.erase w }
  processNextJob maxWorkers s₃

/-- External events driving the pool. -/
inductive PoolEvent
  | submit (j : Nat)
  | completeOk (w j : Nat)
  | completeError (w j : Nat)
deriving DecidableEq, Repr

/-- One pool transition. -/
def poolStep (maxWorkers : Nat) (s : PoolState) : PoolEvent → PoolState
  | .submit j => submitJob maxWorkers j s
  | .completeOk w j => completeJobOk maxWorkers w j s
  | .completeError w j => completeJobError maxWorkers w j s

/-- Run the pool from the fresh state over a trace of events. -/
def runPool (maxWorkers : Nat) (evts : List PoolEvent) : PoolState :=
  evts.foldl (poolStep maxWorkers) ⟨[], [], [], []⟩

/-- Claim C3 is violated by the code (`handleJobResult` clears the whole
busy set, and `processNextJob` then runs twice): after submitting four
jobs to a pool with `maxWorkers = 2` and letting worker 0 complete the
first job, worker 0 is dispatched job 4 while it is still processing
job 3 — three jobs are simultaneously in flight. -/
theorem pool_overdispatch_trace :
    (0, 1) ∈ (runPool 2
      [.submit 1, .submit 2, .submit 3, .submit 4]).inflight
    ∧ runPool 2 [.submit 1, .submit 2, .submit 3, .submit 4,
        .completeOk 0 1]
      = ⟨[], [0], [(1, 2), (0, 3), (0, 4)], [.jobComplete 1]⟩
    ∧ (runPool 2 [.submit 1, .submit 2, .submit 3, .submit 4,
        .completeOk 0 1]).inflight.length = 3
    ∧ (0, 3) ∈ (runPool 2 [.submit 1, .submit 2, .submit 3, .submit 4,
        .completeOk 0 1]).inflight
    ∧ (0, 4) ∈ (runPool 2 [.submit 1, .submit 2, .submit 3, .submit 4,
        .completeOk 0 1]).inflight := by
  refine ⟨by decide, by decide, by decide, by decide, by decide⟩

/-- Claim C4 (amended): when a worker's processing routine rejects, the
continuation emits exactly one `jobError`, pushes the job back to the
front of the queue (ahead of every never-dispatched job), frees the
worker, and dispatches at most once — and if that dispatch fires it picks
up precisely the re-queued job.  There is, however, no once-only bound:
this happens on every failure of the same job. -/
theorem requeue_front_each_failure (maxWorkers : Nat) (s : PoolState)
    (w j : Nat) (hin : (w, j) ∈ s.inflight) :
    (poolStep maxWorkers s (.completeError w j)).emitted
      = s.emitted ++ [PoolEmit.jobError j]
    ∧ ((poolStep maxWorkers s (.completeError w j)).jobQueue
        = j :: s.jobQueue
      ∨ (poolStep maxWorkers s (.completeError w j)).jobQueue = s.jobQueue)
    ∧ ((poolStep maxWorkers s (.completeError w j)).jobQueue
        = j :: s.jobQueue →
        (poolStep maxWorkers s (.completeError w j)).busyWorkers
          = s.busyWorkers.erase w
        ∧ (poolStep maxWorkers s (.completeError w j)).inflight
          = s.inflight.erase (w, j))
    ∧ ((poolStep maxWorkers s (.completeError w j)).jobQueue = s.jobQueue →
        ∃ w₂, (¬ (s.busyWorkers.erase w).contains w₂) = true
          ∧ (poolStep maxWorkers s (.completeError w j)).inflight
            = s.inflight.erase (w, j) ++ [(w₂, j)]
          ∧ (poolStep maxWorkers s (.completeError w j)).busyWorkers
            = addBusy w₂ (s.busyWorkers.erase w)) := by
  have hcons : j :: s.jobQueue ≠ s.jobQueue := by
    intro hq
    have hlen := congrArg List.length hq
    simp at hlen
  cases hfind : findAvailableWorker maxWorkers (s.busyWorkers.erase w) with
  | none =>
    have hred : poolStep maxWorkers s (.completeError w j)
        = { jobQueue := j :: s.jobQueue,
            busyWorkers := s.busyWorkers.erase w,
            inflight := s.inflight.erase (w, j),
            emitted := s.emitted ++ [PoolEmit.jobError j] } := by
      show processNextJob maxWorkers
        { jobQueue := j :: s.jobQueue,
          busyWorkers := s.busyWorkers.erase w,
          inflight := s.inflight.erase (w, j),
          emitted := s.emitted ++ [PoolEmit.jobError j] } = _
      unfold processNextJob
      rw [if_neg (by simp)]
      rw [hfind]
    rw [hred]
    exact ⟨rfl, Or.inl rfl, fun _ => ⟨rfl, rfl⟩, fun hq => absurd hq hcons⟩
  | some w₂ =>
    have hred : poolStep maxWorkers s (.completeError w j)
        = { jobQueue := s.jobQueue,
            busyWorkers := addBusy w₂ (s.busyWorkers.erase w),
            inflight := s.inflight.erase (w, j) ++ [(w₂, j)],
            emitted := s.emitted ++ [PoolEmit.jobError j] } := by
      show processNextJob maxWorkers
        { jobQueue := j :: s.jobQueue,
          busyWorkers := s.busyWorkers.erase w,
          inflight := s.inflight.erase (w, j),
          emitted := s.emitted ++ [PoolEmit.jobError j] } = _
      unfold processNextJob
      rw [if_neg (by simp)]
      rw [hfind]
    rw [hred]
    refine ⟨rfl, Or.inr rfl, fun hq => absurd hq.symm hcons, fun _ => ?_⟩
    refine ⟨w₂, ?_, rfl, rfl⟩
    have hp := List.find?_some hfind
    simpa using hp

/-- Witness for C4 at a concrete two-worker pool state. -/
theorem requeue_front_each_failure_witness :
    (poolStep 2 ⟨[9], [0, 1], [(0, 5), (1, 6)], []⟩
        (.completeError 0 5)).emitted = [] ++ [PoolEmit.jobError 5]
    ∧ ((poolStep 2 ⟨[9], [0, 1], [(0, 5), (1, 6)], []⟩
          (.completeError 0 5)).jobQueue = 5 :: [9]
      ∨ (poolStep 2 ⟨[9], [0, 1], [(0, 5), (1, 6)], []⟩
          (.completeError 0 5)).jobQueue = [9])
    ∧ ((poolStep 2 ⟨[9], [0, 1], [(0, 5), (1, 6)], []⟩
          (.completeError 0 5)).jobQueue = 5 :: [9] →
        (poolStep 2 ⟨[9], [0, 1], [(0, 5), (1, 6)], []⟩
            (.completeError 0 5)).busyWorkers = [0, 1].erase 0
        ∧ (poolStep 2 ⟨[9], [0, 1], [(0, 5), (1, 6)], []⟩
            (.completeError 0 5)).inflight
          = [(0, 5), (1, 6)].erase (0, 5))
    ∧ ((poolStep 2 ⟨[9], [0, 1], [(0, 5), (1, 6)], []⟩
          (.completeError 0 5)).jobQueue = [9] →
        ∃ w₂, (¬ ([0, 1].erase 0).contains w₂) = true
          ∧ (poolStep 2 ⟨[9], [0, 1], [(0, 5), (1, 6)], []⟩
              (.completeError 0 5)).inflight
            = [(0, 5), (1, 6)].erase (0, 5) ++ [(w₂, 5)]
          ∧ (poolStep 2 ⟨[9], [0, 1], [(0, 5), (1, 6)], []⟩
              (.completeError 0 5)).busyWorkers
            = addBusy w₂ ([0, 1].erase 0)) :=
  requeue_front_each_failure 2 ⟨[9], [0, 1], [(0, 5), (1, 6)], []⟩ 0 5
    (by decide)

/-- Counterexample to C4 as stated: with one worker and one job that
always fails, the job is re-queued (and immediately re-dispatched) after
the first failure, and re-queued AGAIN after the second failure — each
failure emits a `jobError` and puts the job back in flight, so re-queues
are not bounded to one per job. -/
theorem requeue_twice_cex :
    (runPool 1 [.submit 5]).inflight = [(0, 5)]
    ∧ runPool 1 [.submit 5, .completeError 0 5]
      = ⟨[], [0], [(0, 5)], [.jobError 5]⟩
    ∧ runPool 1 [.submit 5, .completeError 0 5, .completeError 0 5]
      = ⟨[], [0], [(0, 5)], [.jobError 5, .jobError 5]⟩ := by
  refine ⟨by decide, by decide, by decide⟩

/-! ### Script execution entry points (`executeScript`, `runExactly`,
`runWithAIRepair`)

Oracle environment: per-attempt outcomes of browser initialization,
script-body execution and browser close (indexed by the number of
initializations so far), plus the outcomes of the advisor calls.  Wall-clock fields
(`executionTime`) are not modelled. -/

/-- `run_status` values. -/
inductive RunStatus
  | success
  | failed
deriving DecidableEq, Repr

/-- `ScriptExecutionResponse` of `types.ts` (without `executionTime`). -/
structure ScriptExecutionResponse where
  run_status : RunStatus
  repair_status : Option RepairStatus := none
  repair_confidence : Option Nat := none
  repair_advice : Option Str := none
  updated_script : Option Str := none
  num_deflake_runs : Option Nat := none
  error : Option Str := none
deriving DecidableEq, Repr

/-- `ExecutionMode` of `types.ts`. -/
inductive ExecutionMode
  | RUN_EXACTLY
  | RUN_WITH_AI_REPAIR
deriving DecidableEq, Repr

/-- `ScriptExecutionRequest` of `types.ts` (the fields the core reads). -/
structure ScriptExecutionRequest where
  script : Option Str := none
  mode : ExecutionMode
  repair_flexibility : Option Nat := none
  deflake_run_count : Option Nat := none

/-- Oracle environment for `executeScript`. -/
structure ExecEnv where
  initOutcome : Nat → Option Str
  scriptRun : Nat → Option Str
  closeBrowser : Nat → Option Str
  llmParse : Except Str (List ScriptStep)  -- raw LLM outcome inside the facade
  repair : RepairEnv
  assessConfidence : Except Str (Nat × Str)
  finalizeScript : Except Str Str
  addComment : Str → Str → Str

def msgScriptRequiredExec : Str :=
  ("Script content is required for execution. The TestChimpService should "
    ++ "read the file and provide script content.").data

def msgScriptRequiredRepair : Str :=
  ("Script content is required for AI repair. The TestChimpService should "
    ++ "read the file and provide script content.").data

def msgAllDeflakeFailed : Str := "All deflaking attempts failed".data

def msgNoRepairs : Str := "AI repair could not fix any steps".data

/-- The attempt loop of `runExactly` (source lines 167-207).  Arguments:
remaining attempts, 1-based attempt number, init-call counter, last
caught error.  A browser-initialization throw escapes the function; a
script throw or a close throw is caught and retried. -/
def runExactlyLoop (env : ExecEnv) (dc : Nat) :
    Nat → Nat → Nat → Option Str → Except Str ScriptExecutionResponse × Nat
  | 0, _, counter, lastError =>
    (.ok { run_status := .failed,
           num_deflake_runs := some dc,
           error := some (match lastError with
             | some m => if m = [] then msgAllDeflakeFailed else m
             | none => msgAllDeflakeFailed) }, counter)
  | r + 1, attempt, counter, _ =>
    match env.initOutcome counter with
    | some e => (.error e, counter + 1)
    | none =>
      match env.scriptRun counter with
      | some e => runExactlyLoop env dc r (attempt + 1) (counter + 1) (some e)
      | none =>
        match env.closeBrowser counter with
        | some ce =>
          runExactlyLoop env dc r (attempt + 1) (counter + 1) (some ce)
        | none =>
          (.ok { run_status := .success,
                 num_deflake_runs := some (attempt - 1) }, counter + 1)

/-- Model of `ExecutionService.runExactly`: reject a missing/empty script
before touching the browser, then run `deflake_run_count + 1` attempts
(default count 1). -/
def runExactly (env : ExecEnv) (req : ScriptExecutionRequest)
    (startCounter : Nat) : Except Str ScriptExecutionResponse × Nat :=
  match req.script with
  | none => (.error msgScriptRequiredExec, startCounter)
  | some s =>
    if s = [] then (.error msgScriptRequiredExec, startCounter)
    else
      let dc := req.deflake_run_count.getD 1
      runExactlyLoop env dc (dc + 1) 1 startCounter none

/-- Model of `ExecutionService.runWithAIRepair` (source lines 210-305):
reject a missing/empty script, try `runExactly` first, then run the
repair pipeline inside a catch-all that converts any throw into a failed
response.  Script-text generation for `updated_script` is plumbing from
external collaborators, represented by the `finalizeScript`/`addComment`
oracles. -/
def runWithAIRepair (env : ExecEnv) (fuel : Nat)
    (req : ScriptExecutionRequest) (startCounter : Nat) :
    Option (Except Str ScriptExecutionResponse × Nat) :=
  match req.script with
  | none => some (.error msgScriptRequiredRepair, startCounter)
  | some s =>
    if s = [] then some (.error msgScriptRequiredRepair, startCounter)
    else
      match runExactly env req startCounter with
      | (.error e, n) => some (.error e, n)
      | (.ok r, n) =>
        if r.run_status = .success then some (.ok r, n)
        else
          match env.initOutcome n with
          | some e =>
            some (.ok { run_status := .failed, repair_status := some .failed,
                        num_deflake_runs := r.num_deflake_runs,
                        error := some e }, n + 1)
          | none =>
            let steps := parseScriptIntoSteps
              (Except.ok (LLMFacade.parseScriptIntoSteps env.llmParse)) s
            match runLoop env.repair fuel ⟨steps, 0, 0, 0, [], []⟩ with
            | none => none
            | some fin =>
              if hasSuccessfulRepairs fin.steps then
                match env.assessConfidence with
                | .error e =>
                  some (.ok { run_status := .failed,
                              repair_status := some .failed,
                              num_deflake_runs := r.num_deflake_runs,
                              error := some e }, n + 1)
                | .ok (conf, advice) =>
                  match env.finalizeScript with
                  | .error e =>
                    some (.ok { run_status := .failed,
                                repair_status := some .failed,
                                num_deflake_runs := r.num_deflake_runs,
                                error := some e }, n + 1)
                  | .ok finalScript =>
                    some (.ok { run_status := .failed,
                                repair_status := some (if allStepsSuccessful
                                  fin.steps then .success else .partialRepair),
                                repair_confidence := some conf,
                                repair_advice := some advice,
                                updated_script :=
                                  some (env.addComment finalScript advice),
                                num_deflake_runs := r.num_deflake_runs },
                          n + 1)
              else
                some (.ok { run_status := .failed,
                            repair_status := some .failed,
                            repair_confidence := some 0,
                            repair_advice := some msgNoRepairs,
                            updated_script := some s,
                            num_deflake_runs := r.num_deflake_runs,
                            error := some msgNoRepairs }, n + 1)

/-- Model of `ExecutionService.executeScript`: dispatch on the mode and
convert any internal throw into a failed response carrying the message
(the try/catch of source lines 45-62).  The returned number counts the
browser initializations performed; `none` models a diverging repair
loop. -/
def executeScript (env : ExecEnv) (fuel : Nat)
    (req : ScriptExecutionRequest) :
    Option (ScriptExecutionResponse × Nat) :=
  match req.mode with
  | .RUN_EXACTLY =>
    match runExactly env req 0 with
    | (.ok resp, n) => some (resp, n)
    | (.error e, n) => some ({ run_status := .failed, error := some e }, n)
  | .RUN_WITH_AI_REPAIR =>
    match runWithAIRepair env fuel req 0 with
    | none => none
    | some (.ok resp, n) => some (resp, n)
    | some (.error e, n) =>
      some ({ run_status := .failed, error := some e }, n)

/-- An attempt of `runExactly` that completes its try block: browser
opens, the script body runs, and the close succeeds. -/
def attemptOk (env : ExecEnv) (k : Nat) : Prop :=
  env.initOutcome k = none ∧ env.scriptRun k = none
    ∧ env.closeBrowser k = none

instance (env : ExecEnv) (k : Nat) : Decidable (attemptOk env k) := by
  unfold attemptOk
  infer_instance

/-- The error caught by attempt `k` (the script throw, else the close
throw). -/
def attemptErrMsg (env : ExecEnv) (k : Nat) : Option Str :=
  match env.scriptRun k with
  | some e => some e
  | none => env.closeBrowser k

theorem runExactlyLoop_spec (env : ExecEnv) (dc : Nat)
    (hinit : ∀ k, env.initOutcome k = none) :
    ∀ (r a counter : Nat) (lastError : Option Str),
      (runExactlyLoop env dc r a counter lastError).2 ≤ counter + r
      ∧ (∀ k, k < r → attemptOk env (counter + k) →
          (∀ j, j < k → ¬ attemptOk env (counter + j)) →
          runExactlyLoop env dc r a counter lastError
            = (.ok { run_status := .success,
                     num_deflake_runs := some (a + k - 1) },
               counter + k + 1))
      ∧ ((∀ j, j < r → ¬ attemptOk env (counter + j)) → 0 < r →
          ∃ m, attemptErrMsg env (counter + r - 1) = some m
            ∧ runExactlyLoop env dc r a counter lastError
              = (.ok { run_status := .failed, num_deflake_runs := some dc,
                       error := some (if m = [] then msgAllDeflakeFailed
                         else m) }, counter + r)) := by
  intro r
  induction r with
  | zero =>
    intro a counter lastError
    refine ⟨by simp [runExactlyLoop], ?_, ?_⟩
    · intro k hk
      omega
    · intro _ hr
      omega
  | succ r ih =>
    intro a counter lastError
    have h0 := hinit counter
    cases hrunA : env.scriptRun counter with
    | some e =>
      have hnok : ¬ attemptOk env counter := by
        intro hok
        obtain ⟨_, h₂, _⟩ := hok
        rw [hrunA] at h₂
        exact Option.noConfusion h₂
      have heq : runExactlyLoop env dc (r + 1) a counter lastError
          = runExactlyLoop env dc r (a + 1) (counter + 1) (some e) := by
        rw [runExactlyLoop, h0, hrunA]
      obtain ⟨ihb, ihs, ihf⟩ := ih (a + 1) (counter + 1) (some e)
      refine ⟨?_, ?_, ?_⟩
      · rw [heq]
        omega
      · intro k hk hok hprev
        cases k with
        | zero =>
          exact absurd (by simpa using hok) hnok
        | succ k₂ =>
          rw [heq]
          have harith₁ : counter + 1 + k₂ = counter + (k₂ + 1) := by omega
          have h₂ := ihs k₂ (by omega) (by rw [harith₁]; exact hok)
            (fun j hj => by
              have h₃ := hprev (j + 1) (by omega)
              have harith₂ : counter + 1 + j = counter + (j + 1) := by omega
              rw [harith₂]
              exact h₃)
          rw [h₂]
          have harith₃ : a + 1 + k₂ - 1 = a + (k₂ + 1) - 1 := by omega
          have harith₄ : counter + 1 + k₂ + 1 = counter + (k₂ + 1) + 1 := by
            omega
          rw [harith₃, harith₄]
      · intro hall hr
        rw [heq]
        cases r with
        | zero =>
          refine ⟨e, ?_, ?_⟩
          · have harith : counter + 1 - 1 = counter := by omega
            rw [harith]
            simp [attemptErrMsg, hrunA]
          · rw [runExactlyLoop]
        | succ r₂ =>
          obtain ⟨m, hm, hmeq⟩ := ihf (fun j hj => by
              have h₃ := hall (j + 1) (by omega)
              have harith₂ : counter + 1 + j = counter + (j + 1) := by omega
              rw [harith₂]
              exact h₃) (by omega)
          refine ⟨m, ?_, ?_⟩
          · have harith : counter + 1 + (r₂ + 1) - 1
                = counter + (r₂ + 1 + 1) - 1 := by omega
            rw [← harith]
            exact hm
          · rw [hmeq]
            have harith : counter + 1 + (r₂ + 1) = counter + (r₂ + 1 + 1) := by
              omega
            rw [harith]
    | none =>
      cases hclose : env.closeBrowser counter with
      | some ce =>
        have hnok : ¬ attemptOk env counter := by
          intro hok
          obtain ⟨_, _, h₃⟩ := hok
          rw [hclose] at h₃
          exact Option.noConfusion h₃
        have heq : runExactlyLoop env dc (r + 1) a counter lastError
            = runExactlyLoop env dc r (a + 1) (counter + 1) (some ce) := by
          rw [runExactlyLoop, h0, hrunA, hclose]
        obtain ⟨ihb, ihs, ihf⟩ := ih (a + 1) (counter + 1) (some ce)
        refine ⟨?_, ?_, ?_⟩
        · rw [heq]
          omega
        · intro k hk hok hprev
          cases k with
          | zero =>
            exact absurd (by simpa using hok) hnok
          | succ k₂ =>
            rw [heq]
            have harith₁ : counter + 1 + k₂ = counter + (k₂ + 1) := by omega
            have h₂ := ihs k₂ (by omega) (by rw [harith₁]; exact hok)
              (fun j hj => by
                have h₃ := hprev (j + 1) (by omega)
                have harith₂ : counter + 1 + j = counter + (j + 1) := by omega
                rw [harith₂]
                exact h₃)
            rw [h₂]
            have harith₃ : a + 1 + k₂ - 1 = a + (k₂ + 1) - 1 := by omega
            have harith₄ : counter + 1 + k₂ + 1 = counter + (k₂ + 1) + 1 := by
              omega
            rw [harith₃, harith₄]
        · intro hall hr
          rw [heq]
          cases r with
          | zero =>
            refine ⟨ce, ?_, ?_⟩
            · have harith : counter + 1 - 1 = counter := by omega
              rw [harith]
              simp [attemptErrMsg, hrunA, hclose]
            · rw [runExactlyLoop]
          | succ r₂ =>
            obtain ⟨m, hm, hmeq⟩ := ihf (fun j hj => by
                have h₃ := hall (j + 1) (by omega)
                have harith₂ : counter + 1 + j = counter + (j + 1) := by omega
                rw [harith₂]
                exact h₃) (by omega)
            refine ⟨m, ?_, ?_⟩
            · have harith : counter + 1 + (r₂ + 1) - 1
                  = counter + (r₂ + 1 + 1) - 1 := by omega
              rw [← harith]
              exact hm
            · rw [hmeq]
              have harith : counter + 1 + (r₂ + 1) = counter + (r₂ + 1 + 1) := by
                omega
              rw [harith]
      | none =>
        have hok : attemptOk env counter := ⟨h0, hrunA, hclose⟩
        have heq : runExactlyLoop env dc (r + 1) a counter lastError
            = (.ok { run_status := .success,
                     num_deflake_runs := some (a - 1) }, counter + 1) := by
          rw [runExactlyLoop, h0, hrunA, hclose]
        refine ⟨by rw [heq]; omega, ?_, ?_⟩
        · intro k hk hok₂ hprev
          cases k with
          | zero =>
            rw [heq]
            rfl
          | succ k₂ =>
            have := hprev 0 (by omega)
            exact absurd (by simpa using hok) (by simpa using this)
        · intro hall _
          have := hall 0 (by omega)
          exact absurd (by simpa using hok) (by simpa using this)

/-- Claim C6 (amended): `runExactly` with a non-empty script and
`deflake_run_count = dc` makes at most `dc + 1` attempts; on the first
attempt that completes it returns immediately with `run_status='success'`
and `num_deflake_runs` = attempts consumed minus one; if every attempt
throws, it returns `run_status='failed'` with `num_deflake_runs = dc`,
carrying the error message of the last attempt when that message is
non-empty and the fixed text `'All deflaking attempts failed'` when the
last message is the empty string (the `||` fallback in the source).
Browser initialization is assumed not to throw (its throw would escape
`runExactly` altogether). -/
theorem runExactly_deflake_amended (env : ExecEnv) (s : Str) (dc : Nat)
    (hs : ¬ s = []) (hinit : ∀ k, env.initOutcome k = none) :
    ((runExactly env ⟨some s, .RUN_EXACTLY, none, some dc⟩ 0).2 ≤ dc + 1)
    ∧ (∀ k, k < dc + 1 → attemptOk env k →
        (∀ j, j < k → ¬ attemptOk env j) →
        runExactly env ⟨some s, .RUN_EXACTLY, none, some dc⟩ 0
          = (.ok { run_status := .success, num_deflake_runs := some k },
             k + 1))
    ∧ ((∀ j, j < dc + 1 → ¬ attemptOk env j) →
        ∃ m, attemptErrMsg env dc = some m
          ∧ runExactly env ⟨some s, .RUN_EXACTLY, none, some dc⟩ 0
            = (.ok { run_status := .failed, num_deflake_runs := some dc,
                     error := some (if m = [] then msgAllDeflakeFailed
                       else m) }, dc + 1)) := by
  obtain ⟨hb, hsucc, hfail⟩ := runExactlyLoop_spec env dc hinit (dc + 1) 1 0 none
  have hre : runExactly env ⟨some s, .RUN_EXACTLY, none, some dc⟩ 0
      = runExactlyLoop env dc (dc + 1) 1 0 none := by
    show (if s = [] then _ else _) = _
    rw [if_neg hs]
    rfl
  refine ⟨?_, ?_, ?_⟩
  · rw [hre]
    simpa using hb
  · intro k hk hok hprev
    rw [hre]
    have h₂ := hsucc k hk (by rw [Nat.zero_add]; exact hok)
      (fun j hj => by rw [Nat.zero_add]; exact hprev j hj)
    rw [h₂]
    have harith₁ : 1 + k - 1 = k := by omega
    have harith₂ : 0 + k + 1 = k + 1 := by omega
    rw [harith₁, harith₂]
  · intro hall
    obtain ⟨m, hm, hmeq⟩ := hfail
      (fun j hj => by rw [Nat.zero_add]; exact hall j hj) (by omega)
    refine ⟨m, ?_, ?_⟩
    · have harith : 0 + (dc + 1) - 1 = dc := by omega
      rw [harith] at hm
      exact hm
    · rw [hre, hmeq]
      have harith : 0 + (dc + 1) = dc + 1 := by omega
      rw [harith]

/-- Witness for C6: `deflake_run_count = 2`, attempt 1 throws, attempt 2
succeeds: `run_status = 'success'` with `num_deflake_runs = 1` after two
attempts (the P5 scenario). -/
theorem runExactly_deflake_amended_witness :
    runExactly
      ⟨fun _ => none, fun t => if t = 0 then some "flaky".data else none,
       fun _ => none, .ok [],
       ⟨fun _ => none, fun _ => ⟨false, [], ⟨.MODIFY, none, none, none⟩⟩⟩,
       .ok (0, []), .ok [], fun a _ => a⟩
      ⟨some "x".data, .RUN_EXACTLY, none, some 2⟩ 0
      = (.ok { run_status := .success, num_deflake_runs := some 1 }, 2) :=
  (runExactly_deflake_amended
    ⟨fun _ => none, fun t => if t = 0 then some "flaky".data else none,
     fun _ => none, .ok [],
     ⟨fun _ => none, fun _ => ⟨false, [], ⟨.MODIFY, none, none, none⟩⟩⟩,
     .ok (0, []), .ok [], fun a _ => a⟩
    "x".data 2 (by decide) (fun k => rfl)).2.1 1 (by decide)
    (by decide) (by decide)

/-- Counterexample to C6 as stated: when the last (only) attempt throws an
error whose message is the empty string, the response does not carry that
error; it carries the fixed fallback text `'All deflaking attempts
failed'` instead (`lastError?.message || '...'`). -/
theorem runExactly_empty_error_cex :
    runExactly
      ⟨fun _ => none, fun _ => some [], fun _ => none, .ok [],
       ⟨fun _ => none, fun _ => ⟨false, [], ⟨.MODIFY, none, none, none⟩⟩⟩,
       .ok (0, []), .ok [], fun a _ => a⟩
      ⟨some "x".data, .RUN_EXACTLY, none, some 0⟩ 0
      = (.ok { run_status := .failed, num_deflake_runs := some 0,
               error := some msgAllDeflakeFailed }, 1)
    ∧ (⟨fun _ => none, fun _ => some [], fun _ => none, .ok [],
        ⟨fun _ => none, fun _ => ⟨false, [], ⟨.MODIFY, none, none, none⟩⟩⟩,
        .ok (0, []), .ok [], fun a _ => a⟩ : ExecEnv).scriptRun 0 = some []
    ∧ msgAllDeflakeFailed ≠ [] := by
  refine ⟨rfl, rfl, by decide⟩

/-- Claim C10: `executeScript` is total at the public interface: a
missing or empty script is rejected with the mode's requirement message
before any browser is opened or any attempt made (the counter stays 0),
and any internal throw is caught and converted into a
`run_status='failed'` response carrying the thrown message — no
exception escapes. -/
theorem executeScript_total_rejects (env : ExecEnv) (fuel : Nat)
    (req : ScriptExecutionRequest) :
    ((req.script = none ∨ req.script = some []) →
      executeScript env fuel req
        = some ({ run_status := .failed,
                  error := some (match req.mode with
                    | .RUN_EXACTLY => msgScriptRequiredExec
                    | .RUN_WITH_AI_REPAIR => msgScriptRequiredRepair) }, 0))
    ∧ (∀ e n, req.mode = .RUN_EXACTLY →
        runExactly env req 0 = (.error e, n) →
        executeScript env fuel req
          = some ({ run_status := .failed, error := some e }, n))
    ∧ (∀ e n, req.mode = .RUN_WITH_AI_REPAIR →
        runWithAIRepair env fuel req 0 = some (.error e, n) →
        executeScript env fuel req
          = some ({ run_status := .failed, error := some e }, n)) := by
  obtain ⟨scr, mode, rf, dcnt⟩ := req
  refine ⟨?_, ?_, ?_⟩
  · intro hmiss
    rcases hmiss with h | h <;> cases h <;> cases mode <;> rfl
  · intro e n hmode hrx
    cases hmode
    simp only [executeScript, hrx]
  · intro e n hmode hrw
    cases hmode
    simp only [executeScript, hrw]

/-- Witness for C10: a request without script content in RUN_EXACTLY mode
is rejected with the requirement message and zero browser sessions. -/
theorem executeScript_total_rejects_witness :
    executeScript
      ⟨fun _ => none, fun _ => none, fun _ => none, .ok [],
       ⟨fun _ => none, fun _ => ⟨false, [], ⟨.MODIFY, none, none, none⟩⟩⟩,
       .ok (0, []), .ok [], fun a _ => a⟩ 0
      ⟨none, .RUN_EXACTLY, none, none⟩
      = some ({ run_status := .failed,
                error := some msgScriptRequiredExec }, 0) :=
  (executeScript_total_rejects
    ⟨fun _ => none, fun _ => none, fun _ => none, .ok [],
     ⟨fun _ => none, fun _ => ⟨false, [], ⟨.MODIFY, none, none, none⟩⟩⟩,
     .ok (0, []), .ok [], fun a _ => a⟩ 0
    ⟨none, .RUN_EXACTLY, none, none⟩).1 (Or.inl rfl)

/-! ### C8: every failed response carries an explanation -/

